import Mathlib

/-!
# Draw engine of `gacha_nibung_char.cpp`

A shallow embedding of the class `GachaSystem` (catalog, pity counters, draw
resolution, batch draw) and the properties of its draw algorithm.

Modelling conventions.

* `double` is exact rational arithmetic (`ℚ`).
* `int` is `Int`.  The only increment of a counter is `pullCount++`; after
  every draw `pullCount < hardPity`, so the increment stays inside the range
  of `int` in every state the class can reach.
* `std::vector` is `List`, `push_back` appends at the end; a catalog index
  `size_t i` stored into the `int` member `selectedCharPity` keeps its value.
* `dist(rng)` reads the next value of a stream `rnd : Nat → ℚ`; the state
  records how many values were consumed (`rngPos`).
* An out-of-range `characters[selectedCharPity]` has no defined behaviour:
  `pull` returns `none` there.
* `GachaResult result;` default-initialises the two strings to `""` and
  leaves `isPity` and `pullNumber` indeterminate; their content is supplied
  by `Env.uninitPity` / `Env.uninitNumber`.
-/

namespace Gacha

/-- The struct `Character`. -/
structure Character where
  name : String
  rarity : String
  rate : ℚ
  title : String
  element : String
  deriving DecidableEq, Repr

/-- The struct `GachaResult`. -/
structure GachaResult where
  item : String
  rarity : String
  isPity : Bool
  pullNumber : Int
  deriving DecidableEq, Repr

/-- The member `rarityRates`: the constructor stores the four keys
`"SSR"`, `"SR"`, `"R"`, `"Common"` and no member function adds, removes or
changes a key, so the map is a record of its four values. -/
structure RarityRates where
  SSR : ℚ
  SR : ℚ
  R : ℚ
  Common : ℚ
  deriving DecidableEq, Repr

/-- The data members of `GachaSystem`.  `rng`/`dist` are represented by the
number `rngPos` of values already drawn from the stream. -/
structure GachaSystem where
  characters : List Character
  hardPity : Int
  softPityStart : Int
  softPityBoost : ℚ
  pullCount : Int
  selectedCharPity : Int
  history : List GachaResult
  rngPos : Nat
  rarityRates : RarityRates
  totalRarityRates : List (String × ℚ)
  deriving DecidableEq, Repr

/-- What the engine does not determine itself: the values `dist(rng)` returns
(`rnd k` is the `k`-th value drawn since construction) and the indeterminate
content of the scalar members of a default-initialised `GachaResult`
(indexed by the number of draws already recorded in the history). -/
structure Env where
  rnd : Nat → ℚ
  uninitPity : Nat → Bool
  uninitNumber : Nat → Int

/-- The statement `totalRarityRates[rarity] += rate` on the cache map
(a missing key starts from `0.0`). -/
def addToTotal (rarity : String) (rate : ℚ) : List (String × ℚ) → List (String × ℚ)
  | [] => [(rarity, 0 + rate)]
  | (k, v) :: rest =>
    if k = rarity then (k, v + rate) :: rest else (k, v) :: addToTotal rarity rate rest

/-- The member function `recalculateTotalRates`: clear the cache, then add every
character's rate to the entry of its rarity. -/
def recalculateTotalRates (s : GachaSystem) : GachaSystem :=
  { s with totalRarityRates :=
      s.characters.foldl (fun acc c => addToTotal c.rarity c.rate acc) [] }

/-- The constructor `GachaSystem()`. -/
def GachaSystem.new : GachaSystem :=
  recalculateTotalRates
    { characters := []
      hardPity := 90
      softPityStart := 75
      softPityBoost := 5
      pullCount := 0
      selectedCharPity := 0
      history := []
      rngPos := 0
      rarityRates := { SSR := 1 / 100, SR := 5 / 100, R := 15 / 100, Common := 79 / 100 }
      totalRarityRates := [] }

/-- The member function `addCharacter`. -/
def addCharacter (s : GachaSystem) (name rarity : String) (rate : ℚ)
    (title element : String) : GachaSystem :=
  recalculateTotalRates
    { s with characters := s.characters ++
        [{ name := name, rarity := rarity, rate := rate, title := title, element := element }] }

/-- The member function `setPitySettings`. -/
def setPitySettings (s : GachaSystem) (hardPityValue softPityValue : Int)
    (softPityBoostValue : ℚ) : GachaSystem :=
  if hardPityValue > 0 ∧ softPityValue > 0 ∧ softPityValue < hardPityValue
      ∧ softPityBoostValue > 1 then
    { s with hardPity := hardPityValue
             softPityStart := softPityValue
             softPityBoost := softPityBoostValue }
  else s

/-- The member function `setSelectedCharPity`. -/
def setSelectedCharPity (s : GachaSystem) (index : Int) : GachaSystem :=
  if index ≥ 0 ∧ index < (s.characters.length : Int) then
    { s with selectedCharPity := index }
  else s

/-- The loop of `setSelectedCharPityByName`, started at index `i` on the part of
the catalog from `i` on: the first index whose entry has the name and rarity
`"SSR"`. -/
def findSSRByName (name : String) : List Character → Nat → Option Nat
  | [], _ => none
  | c :: cs, i =>
    if c.name = name ∧ c.rarity = "SSR" then some i else findSSRByName name cs (i + 1)

/-- The member function `setSelectedCharPityByName`: the returned flag and the
state afterwards. -/
def setSelectedCharPityByName (s : GachaSystem) (name : String) : Bool × GachaSystem :=
  match findSSRByName name s.characters 0 with
  | some i => (true, { s with selectedCharPity := (i : Int) })
  | none => (false, s)

/-- The local `ssrRateMultiplier` of `pull`, for the incremented counter `pullCount`. -/
def ssrRateMultiplier (s : GachaSystem) (pullCount : Int) : ℚ :=
  if pullCount ≥ s.softPityStart then s.softPityBoost else 1

/-- The local `adjustedSSRRate` of `pull`. -/
def adjustedSSRRate (rates : RarityRates) (mult : ℚ) : ℚ := rates.SSR * mult

/-- The local `totalRate` of `pull`. -/
def totalRate (rates : RarityRates) (mult : ℚ) : ℚ :=
  adjustedSSRRate rates mult + rates.SR + rates.R + rates.Common

/-- The local `normalizedSSRRate` of `pull`. -/
def normalizedSSRRate (rates : RarityRates) (mult : ℚ) : ℚ :=
  adjustedSSRRate rates mult / totalRate rates mult

/-- The local `normalizedSRRate` of `pull`. -/
def normalizedSRRate (rates : RarityRates) (mult : ℚ) : ℚ :=
  rates.SR / totalRate rates mult

/-- The local `normalizedRRate` of `pull`. -/
def normalizedRRate (rates : RarityRates) (mult : ℚ) : ℚ :=
  rates.R / totalRate rates mult

/-- The `if`/`else if` chain of `pull` that fixes `selectedRarity`. -/
def selectRarity (rates : RarityRates) (mult : ℚ) (rarityRand : ℚ) : String :=
  if rarityRand < normalizedSSRRate rates mult then "SSR"
  else if rarityRand < normalizedSSRRate rates mult + normalizedSRRate rates mult then "SR"
  else if rarityRand < normalizedSSRRate rates mult + normalizedSRRate rates mult
      + normalizedRRate rates mult then "R"
  else "Common"

/-- The vector `rarityChars` of `pull`: the catalog entries of the selected rarity,
in catalog order. -/
def rarityChars (characters : List Character) (selectedRarity : String) : List Character :=
  characters.filter (fun c => c.rarity = selectedRarity)

/-- The local `totalRarityRate` of `pull`: the rates of `rarityChars` added up from
`0.0` in catalog order. -/
def totalRarityRate (characters : List Character) (selectedRarity : String) : ℚ :=
  (rarityChars characters selectedRarity).foldl (fun acc c => acc + c.rate) 0

/-- The inner loop of `pull` over `rarityChars`, with `charCumRate` as accumulator:
the first entry at which `charRand <= charCumRate`, or `none` when the loop
ends without reaching its `break`. -/
def pickCharacter (charRand : ℚ) : ℚ → List Character → Option Character
  | _, [] => none
  | charCumRate, c :: cs =>
    if charRand ≤ charCumRate + c.rate then some c
    else pickCharacter charRand (charCumRate + c.rate) cs

/-- The `else` branch of `pull` up to the choice of the result, for the incremented
counter `pullCount`: the selected rarity, the result, and the stream position
afterwards (`randomValue`, `rarityRand`, and `charRand` when the tier has
an entry). -/
def naturalRoll (env : Env) (s : GachaSystem) (pullCount : Int) :
    String × GachaResult × Nat :=
  let selectedRarity :=
    selectRarity s.rarityRates (ssrRateMultiplier s pullCount) (env.rnd (s.rngPos + 1))
  if (rarityChars s.characters selectedRarity).isEmpty then
    (selectedRarity,
      { item := selectedRarity ++ " Item", rarity := selectedRarity, isPity := false,
        pullNumber := pullCount },
      s.rngPos + 2)
  else
    match pickCharacter (env.rnd (s.rngPos + 2) * totalRarityRate s.characters selectedRarity)
        0 (rarityChars s.characters selectedRarity) with
    | some c =>
      (selectedRarity,
        { item := c.name, rarity := c.rarity, isPity := false, pullNumber := pullCount },
        s.rngPos + 3)
    | none =>
      (selectedRarity,
        { item := "", rarity := "", isPity := env.uninitPity s.history.length,
          pullNumber := env.uninitNumber s.history.length },
        s.rngPos + 3)

/-- The vector access `characters[selectedCharPity]`. -/
def selectedCharacter (s : GachaSystem) : Option Character :=
  if 0 ≤ s.selectedCharPity then s.characters.get? s.selectedCharPity.toNat else none

/-- The member function `pull`: the returned result and the state afterwards. -/
def pull (env : Env) (s : GachaSystem) : Option (GachaResult × GachaSystem) :=
  if s.pullCount + 1 ≥ s.hardPity then
    match selectedCharacter s with
    | none => none
    | some c =>
      some ({ item := c.name, rarity := "SSR", isPity := true, pullNumber := s.pullCount + 1 },
        { s with
          pullCount := 0
          history := s.history ++
            [{ item := c.name, rarity := "SSR", isPity := true, pullNumber := s.pullCount + 1 }] })
  else
    some ((naturalRoll env s (s.pullCount + 1)).2.1,
      { s with
        pullCount := if (naturalRoll env s (s.pullCount + 1)).1 = "SSR" then 0 else s.pullCount + 1
        history := s.history ++ [(naturalRoll env s (s.pullCount + 1)).2.1]
        rngPos := (naturalRoll env s (s.pullCount + 1)).2.2 })

/-- The loop of `multiPull` with loop variable `i` and the vector `results`. -/
def multiPullLoop (env : Env) (count : Int) (i : Int) (results : List GachaResult)
    (s : GachaSystem) : Option (List GachaResult × GachaSystem) :=
  if i < count then
    match pull env s with
    | none => none
    | some (r, s1) => multiPullLoop env count (i + 1) (results ++ [r]) s1
  else some (results, s)
termination_by (count - i).toNat
decreasing_by omega

/-- The member function `multiPull`. -/
def multiPull (env : Env) (s : GachaSystem) (count : Int) :
    Option (List GachaResult × GachaSystem) :=
  multiPullLoop env count 0 [] s

/-- The member function `isInSoftPity`. -/
def isInSoftPity (s : GachaSystem) : Bool :=
  decide (s.pullCount ≥ s.softPityStart ∧ s.pullCount < s.hardPity)

/-- The member function `getCurrentSSRRate`. -/
def getCurrentSSRRate (s : GachaSystem) : ℚ :=
  if isInSoftPity s then s.rarityRates.SSR * s.softPityBoost else s.rarityRates.SSR

/-- As the spec words it: `n` successive calls of `pull`, the results in call order. -/
def pullSeq (env : Env) : Nat → GachaSystem → Option (List GachaResult × GachaSystem)
  | 0, s => some ([], s)
  | n + 1, s =>
    match pull env s with
    | none => none
    | some (r, s1) =>
      match pullSeq env n s1 with
      | none => none
      | some (rs, s2) => some (r :: rs, s2)

/-- The states the class can be in: built by the constructor and changed by the
public mutating member functions. -/
inductive Reachable (env : Env) : GachaSystem → Prop
  | new : Reachable env GachaSystem.new
  | addCharacter {s : GachaSystem} (name rarity : String) (rate : ℚ) (title element : String) :
      Reachable env s → Reachable env (addCharacter s name rarity rate title element)
  | setPitySettings {s : GachaSystem} (h sp : Int) (m : ℚ) :
      Reachable env s → Reachable env (setPitySettings s h sp m)
  | setSelectedCharPity {s : GachaSystem} (index : Int) :
      Reachable env s → Reachable env (setSelectedCharPity s index)
  | setSelectedCharPityByName {s : GachaSystem} (name : String) :
      Reachable env s → Reachable env (setSelectedCharPityByName s name).2
  | pull {s s1 : GachaSystem} {r : GachaResult} :
      Reachable env s → pull env s = some (r, s1) → Reachable env s1

/-- Every catalog entry has a non-negative rate. -/
def NonnegRates (s : GachaSystem) : Prop := ∀ c ∈ s.characters, 0 ≤ c.rate

/-- Every value of the stream lies in `[0, 1)`, the range of `dist`. -/
def UnitStream (env : Env) : Prop := ∀ k, 0 ≤ env.rnd k ∧ env.rnd k < 1

/-- The value of the local `selectedRarity` of `pull` after the tier chain, for the
incremented counter `pullCount`. -/
def selectedRarity (env : Env) (s : GachaSystem) (pullCount : Int) : String :=
  selectRarity s.rarityRates (ssrRateMultiplier s pullCount) (env.rnd (s.rngPos + 1))

/-- The value of the local `charRand` of `pull`: the third stream value scaled by
`totalRarityRate`. -/
def charRand (env : Env) (s : GachaSystem) (pullCount : Int) : ℚ :=
  env.rnd (s.rngPos + 2) * totalRarityRate s.characters (selectedRarity env s pullCount)

/-- As the spec words it: walk the tiers in the given order, accumulating
probability mass from `cum`; the first tier whose cumulative mass exceeds `r`. -/
def firstTierAbove (r : ℚ) : ℚ → List (String × ℚ) → Option String
  | _, [] => none
  | cum, (tier, p) :: rest =>
    if r < cum + p then some tier else firstTierAbove r (cum + p) rest

/-- As the spec words it: the tiers in canonical order, top tier first, each with
its normalised probability (effective rate over total effective rate). -/
def tierTable (rates : RarityRates) (mult : ℚ) : List (String × ℚ) :=
  [("SSR", adjustedSSRRate rates mult / totalRate rates mult),
   ("SR", rates.SR / totalRate rates mult),
   ("R", rates.R / totalRate rates mult),
   ("Common", rates.Common / totalRate rates mult)]

/-- As the spec words it: the cumulative weight of the entry at position `j` of a
list of items, the weights of the entries at positions `0..j` added up. -/
def cumWeight (cs : List Character) (j : Nat) : ℚ :=
  ((cs.take (j + 1)).map (fun c => c.rate)).sum

/-! ## Concrete inputs -/

/-- A stream whose values are all `99/100`; the indeterminate scalars read as
`false` and `0`. -/
def highEnv : Env :=
  { rnd := fun _ => 99 / 100, uninitPity := fun _ => false, uninitNumber := fun _ => 0 }

/-- A stream whose values are all `0`; the indeterminate scalars read as `false`
and `0`. -/
def zeroEnv : Env :=
  { rnd := fun _ => 0, uninitPity := fun _ => false, uninitNumber := fun _ => 0 }

/-- One top-tier item `"A"` of weight 1, hard pity 3, soft pity from 2, boost 5. -/
def oneSSR : GachaSystem :=
  setPitySettings (addCharacter GachaSystem.new "A" "SSR" 1 "" "") 3 2 5

/-- One top-tier item `"X"` of weight -1, hard pity 2, soft pity from 1, boost 2. -/
def negSSR : GachaSystem :=
  setPitySettings (addCharacter GachaSystem.new "X" "SSR" (-1) "" "") 2 1 2

/-- The state `oneSSR` after one draw on `highEnv`. -/
def oneSSR1 : GachaSystem :=
  { oneSSR with
    pullCount := 1, history := [⟨"Common Item", "Common", false, 1⟩], rngPos := 2 }

/-- The state `oneSSR` after two draws on `highEnv`. -/
def oneSSR2 : GachaSystem :=
  { oneSSR with
    pullCount := 2
    history := [⟨"Common Item", "Common", false, 1⟩, ⟨"Common Item", "Common", false, 2⟩]
    rngPos := 4 }

/-- The state `oneSSR` after three draws on `highEnv`. -/
def oneSSR3 : GachaSystem :=
  { oneSSR with
    pullCount := 0
    history := [⟨"Common Item", "Common", false, 1⟩, ⟨"Common Item", "Common", false, 2⟩,
      ⟨"A", "SSR", true, 3⟩]
    rngPos := 4 }

/-- The state `negSSR` after one draw on `zeroEnv`. -/
def negSSR1 : GachaSystem :=
  { negSSR with pullCount := 0, history := [⟨"", "", false, 0⟩], rngPos := 3 }

/-- The state `negSSR` after two draws on `zeroEnv`. -/
def negSSR2 : GachaSystem :=
  { negSSR with
    pullCount := 0, history := [⟨"", "", false, 0⟩, ⟨"", "", false, 0⟩], rngPos := 6 }

/-- A stream whose values are all `0`, with the indeterminate scalars reading as
`b`, `n`. -/
def zeroEnvWith (b : Nat → Bool) (n : Nat → Int) : Env :=
  { rnd := fun _ => 0, uninitPity := b, uninitNumber := n }

/-- The state `negSSR` after one draw on `zeroEnvWith b n`. -/
def negSSR1With (b : Nat → Bool) (n : Nat → Int) : GachaSystem :=
  { negSSR with pullCount := 0, history := [⟨"", "", b 0, n 0⟩], rngPos := 3 }

/-- The state `negSSR` after two draws on `zeroEnvWith b n`. -/
def negSSR2With (b : Nat → Bool) (n : Nat → Int) : GachaSystem :=
  { negSSR with
    pullCount := 0, history := [⟨"", "", b 0, n 0⟩, ⟨"", "", b 1, n 1⟩], rngPos := 6 }

/-- The state `oneSSR2` (counter at 2) after the threshold is lowered to 2. -/
def lowered : GachaSystem := setPitySettings oneSSR2 2 1 2

/-- The state `lowered` after one draw. -/
def lowered1 : GachaSystem :=
  { lowered with
    pullCount := 0
    history := [⟨"Common Item", "Common", false, 1⟩, ⟨"Common Item", "Common", false, 2⟩,
      ⟨"A", "SSR", true, 3⟩] }

/-- A catalog with two entries named `"B"`: a mid-tier one first, a top-tier one
second; then a top-tier `"C"`. -/
def twoB : GachaSystem :=
  addCharacter (addCharacter (addCharacter GachaSystem.new "B" "SR" 1 "" "") "B" "SSR" 1 "" "")
    "C" "SSR" 1 "" ""

/-- A mid-tier entry added before the first top-tier one; nothing else is called. -/
def srFirst : GachaSystem :=
  addCharacter (addCharacter GachaSystem.new "Axel" "SR" (15 / 1000) "" "")
    "razib" "SSR" (4 / 1000) "" ""

/-- A top-tier entry, then a mid-tier one; `setSelectedCharPity(1)`, hard pity 2,
soft pity from 1, boost 2. -/
def byIndex : GachaSystem :=
  setPitySettings
    (setSelectedCharPity
      (addCharacter (addCharacter GachaSystem.new "razib" "SSR" (4 / 1000) "" "")
        "Axel" "SR" (15 / 1000) "" "") 1) 2 1 2

/-- The state `byIndex` after one draw on `highEnv`. -/
def byIndex1 : GachaSystem :=
  { byIndex with
    pullCount := 1, history := [⟨"Common Item", "Common", false, 1⟩], rngPos := 2 }

/-- The state `byIndex` after two draws on `highEnv`. -/
def byIndex2 : GachaSystem :=
  { byIndex with
    pullCount := 0
    history := [⟨"Common Item", "Common", false, 1⟩, ⟨"Axel", "SSR", true, 2⟩]
    rngPos := 2 }

/-- A stream whose values are all `1/100`, the normalised top-tier probability of
the constructor's rate table outside soft pity. -/
def boundaryEnv : Env :=
  { rnd := fun _ => 1 / 100, uninitPity := fun _ => false, uninitNumber := fun _ => 0 }

/-- A stream whose third value is `1/2` and whose other values are `99/100`. -/
def halfEnv : Env :=
  { rnd := fun k => if k = 2 then 1 / 2 else 99 / 100
    uninitPity := fun _ => false
    uninitNumber := fun _ => 0 }

/-- Two base-tier items `"P"` and `"Q"` of weight 1 each, in this order. -/
def twoCommon : GachaSystem :=
  addCharacter (addCharacter GachaSystem.new "P" "Common" 1 "" "") "Q" "Common" 1 "" ""

/-- The state `twoCommon` after one draw on `halfEnv`. -/
def twoCommon1 : GachaSystem :=
  { twoCommon with pullCount := 1, history := [⟨"P", "Common", false, 1⟩], rngPos := 3 }

/-- The constructor's state after one draw on `zeroEnv`. -/
def new1 : GachaSystem :=
  { GachaSystem.new with
    pullCount := 0, history := [⟨"SSR Item", "SSR", false, 1⟩], rngPos := 2 }

/-! ## The item walk -/

theorem foldl_rate_shift (cs : List Character) (a : ℚ) :
    cs.foldl (fun acc c => acc + c.rate) a = a + cs.foldl (fun acc c => acc + c.rate) 0 := by
  induction cs generalizing a with
  | nil => simp
  | cons c cs ih =>
    simp only [List.foldl_cons]
    rw [ih (a + c.rate), ih (0 + c.rate)]
    ring

theorem foldl_rate_nonneg (cs : List Character) (h : ∀ c ∈ cs, 0 ≤ c.rate) :
    0 ≤ cs.foldl (fun acc c => acc + c.rate) 0 := by
  induction cs with
  | nil => simp
  | cons c cs ih =>
    simp only [List.foldl_cons]
    rw [foldl_rate_shift]
    have h1 : 0 ≤ c.rate := h c (List.mem_cons_self _ _)
    have h2 := ih (fun d hd => h d (List.mem_cons_of_mem _ hd))
    linarith

theorem pickCharacter_mem (charRand : ℚ) (cs : List Character) (cum : ℚ) (c : Character)
    (h : pickCharacter charRand cum cs = some c) : c ∈ cs := by
  induction cs generalizing cum with
  | nil => simp [pickCharacter] at h
  | cons d ds ih =>
    unfold pickCharacter at h
    split at h
    · simp only [Option.some.injEq] at h
      subst h
      exact List.mem_cons_self _ _
    · exact List.mem_cons_of_mem _ (ih _ h)

theorem pickCharacter_isSome (charRand : ℚ) (cs : List Character) (cum : ℚ)
    (hne : cs ≠ []) (h : charRand ≤ cs.foldl (fun acc c => acc + c.rate) cum) :
    ∃ c, pickCharacter charRand cum cs = some c := by
  induction cs generalizing cum with
  | nil => exact absurd rfl hne
  | cons d ds ih =>
    unfold pickCharacter
    by_cases hd : charRand ≤ cum + d.rate
    · exact ⟨d, by simp [hd]⟩
    · simp only [hd, if_false]
      by_cases hds : ds = []
      · subst hds
        simp only [List.foldl_cons, List.foldl_nil] at h
        exact absurd h hd
      · exact ih (cum + d.rate) hds (by simpa using h)

theorem rarityChars_rarity (cs : List Character) (sel : String) (c : Character)
    (h : c ∈ rarityChars cs sel) : c.rarity = sel := by
  unfold rarityChars at h
  simpa using (List.mem_filter.mp h).2

theorem totalRarityRate_nonneg (s : GachaSystem) (hw : NonnegRates s) (sel : String) :
    0 ≤ totalRarityRate s.characters sel := by
  unfold totalRarityRate
  apply foldl_rate_nonneg
  intro c hc
  unfold rarityChars at hc
  exact hw c (List.mem_filter.mp hc).1

/-- With non-negative rates and a stream value below one, the walk reaches its `break`. -/
theorem pick_found (s : GachaSystem) (hw : NonnegRates s) (u : ℚ) (hu : u < 1) (sel : String)
    (hne : (rarityChars s.characters sel).isEmpty = false) :
    ∃ c, pickCharacter (u * totalRarityRate s.characters sel) 0 (rarityChars s.characters sel)
        = some c ∧ c.rarity = sel := by
  have hne1 : rarityChars s.characters sel ≠ [] := by
    intro h0
    rw [h0] at hne
    simp at hne
  have ht := totalRarityRate_nonneg s hw sel
  have hle : u * totalRarityRate s.characters sel ≤
      (rarityChars s.characters sel).foldl (fun acc c => acc + c.rate) 0 := by
    have : u * totalRarityRate s.characters sel ≤ 1 * totalRarityRate s.characters sel :=
      mul_le_mul_of_nonneg_right (le_of_lt hu) ht
    simpa [totalRarityRate] using this
  obtain ⟨c, hc⟩ := pickCharacter_isSome _ _ 0 hne1 hle
  exact ⟨c, hc, rarityChars_rarity _ _ _ (pickCharacter_mem _ _ _ _ hc)⟩

/-! ## One natural roll -/

theorem naturalRoll_spec (env : Env) (s : GachaSystem) (pc : Int) (hw : NonnegRates s)
    (hu : env.rnd (s.rngPos + 2) < 1) :
    (naturalRoll env s pc).2.1.rarity = (naturalRoll env s pc).1 ∧
    (naturalRoll env s pc).2.1.pullNumber = pc ∧
    (naturalRoll env s pc).2.1.isPity = false := by
  unfold naturalRoll
  simp only
  split
  · exact ⟨rfl, rfl, rfl⟩
  · rename_i hne
    obtain ⟨c, hc, hcr⟩ := pick_found s hw (env.rnd (s.rngPos + 2)) hu _
      (by simpa using hne)
    rw [hc]
    exact ⟨hcr, rfl, rfl⟩

/-! ## One draw -/

theorem pull_hard (env : Env) (s : GachaSystem) (h : s.pullCount + 1 ≥ s.hardPity)
    (c : Character) (hc : selectedCharacter s = some c) :
    pull env s =
      some ({ item := c.name, rarity := "SSR", isPity := true, pullNumber := s.pullCount + 1 },
        { s with
          pullCount := 0
          history := s.history ++
            [{ item := c.name, rarity := "SSR", isPity := true,
               pullNumber := s.pullCount + 1 }] }) := by
  unfold pull
  rw [if_pos h, hc]

theorem pull_natural (env : Env) (s : GachaSystem) (h : ¬ s.pullCount + 1 ≥ s.hardPity) :
    pull env s =
      some ((naturalRoll env s (s.pullCount + 1)).2.1,
        { s with
          pullCount :=
            if (naturalRoll env s (s.pullCount + 1)).1 = "SSR" then 0 else s.pullCount + 1
          history := s.history ++ [(naturalRoll env s (s.pullCount + 1)).2.1]
          rngPos := (naturalRoll env s (s.pullCount + 1)).2.2 }) := by
  unfold pull
  rw [if_neg h]

/-- A draw changes only `pullCount`, `history` and the stream position. -/
theorem pull_frame (env : Env) (s s1 : GachaSystem) (r : GachaResult)
    (h : pull env s = some (r, s1)) :
    s1.characters = s.characters ∧ s1.hardPity = s.hardPity ∧
    s1.softPityStart = s.softPityStart ∧ s1.softPityBoost = s.softPityBoost ∧
    s1.selectedCharPity = s.selectedCharPity ∧ s1.rarityRates = s.rarityRates ∧
    s1.totalRarityRates = s.totalRarityRates ∧ s1.history = s.history ++ [r] := by
  by_cases hh : s.pullCount + 1 ≥ s.hardPity
  · cases hc : selectedCharacter s with
    | none => simp [pull, hh, hc] at h
    | some c =>
      rw [pull_hard env s hh c hc] at h
      simp only [Option.some.injEq, Prod.mk.injEq] at h
      obtain ⟨rfl, rfl⟩ := h
      simp
  · rw [pull_natural env s hh] at h
    simp only [Option.some.injEq, Prod.mk.injEq] at h
    obtain ⟨rfl, rfl⟩ := h
    simp

/-- The counter after a draw, by the rarity of the result. -/
theorem pull_counter (env : Env) (s s1 : GachaSystem) (r : GachaResult)
    (hw : NonnegRates s) (hu : env.rnd (s.rngPos + 2) < 1)
    (h : pull env s = some (r, s1)) :
    (r.rarity = "SSR" → s1.pullCount = 0) ∧
    (r.rarity ≠ "SSR" → s1.pullCount = s.pullCount + 1 ∧ ¬ s.pullCount + 1 ≥ s.hardPity) := by
  by_cases hh : s.pullCount + 1 ≥ s.hardPity
  · cases hc : selectedCharacter s with
    | none => simp [pull, hh, hc] at h
    | some c =>
      rw [pull_hard env s hh c hc] at h
      simp only [Option.some.injEq, Prod.mk.injEq] at h
      obtain ⟨rfl, rfl⟩ := h
      simp
  · rw [pull_natural env s hh] at h
    simp only [Option.some.injEq, Prod.mk.injEq] at h
    obtain ⟨rfl, rfl⟩ := h
    obtain ⟨hr, -, -⟩ := naturalRoll_spec env s (s.pullCount + 1) hw hu
    rw [hr]
    constructor
    · intro h1
      simp [h1]
    · intro h1
      simp [h1, hh]

/-! ## Runs of draws -/

theorem selectedCharacter_isSome (s : GachaSystem)
    (hsel : 0 ≤ s.selectedCharPity ∧ s.selectedCharPity < s.characters.length) :
    ∃ c, selectedCharacter s = some c := by
  unfold selectedCharacter
  rw [if_pos hsel.1]
  have h : s.selectedCharPity.toNat < s.characters.length := by omega
  exact ⟨s.characters.get ⟨_, h⟩, List.get?_eq_get h⟩

theorem pullSeq_succ_eq (env : Env) (n : Nat) (s t s2 : GachaSystem) (r : GachaResult)
    (rs : List GachaResult) (hp : pull env s = some (r, t))
    (hq : pullSeq env n t = some (rs, s2)) :
    pullSeq env (n + 1) s = some (r :: rs, s2) := by
  unfold pullSeq
  rw [hp]
  simp only
  rw [hq]

theorem pullSeq_succ_inv (env : Env) (n : Nat) (s s2 : GachaSystem) (rs : List GachaResult)
    (h : pullSeq env (n + 1) s = some (rs, s2)) :
    ∃ r t rs1, pull env s = some (r, t) ∧ pullSeq env n t = some (rs1, s2) ∧ rs = r :: rs1 := by
  unfold pullSeq at h
  cases hp : pull env s with
  | none => simp [hp] at h
  | some p =>
    obtain ⟨r, t⟩ := p
    rw [hp] at h
    simp only at h
    cases hq : pullSeq env n t with
    | none => simp [hq] at h
    | some q =>
      obtain ⟨rs1, t1⟩ := q
      rw [hq] at h
      simp only [Option.some.injEq, Prod.mk.injEq] at h
      obtain ⟨rfl, rfl⟩ := h
      exact ⟨r, t, rs1, rfl, hq, rfl⟩

theorem pullSeq_noSSR (env : Env) (hu : UnitStream env) :
    ∀ (k : Nat) (s s1 : GachaSystem) (rs : List GachaResult), NonnegRates s →
      pullSeq env k s = some (rs, s1) → (∀ r ∈ rs, r.rarity ≠ "SSR") →
      s1.pullCount = s.pullCount + k ∧ s1.characters = s.characters ∧
      s1.hardPity = s.hardPity ∧ s1.selectedCharPity = s.selectedCharPity := by
  intro k
  induction k with
  | zero =>
    intro s s1 rs _ h _
    simp only [pullSeq, Option.some.injEq, Prod.mk.injEq] at h
    obtain ⟨-, rfl⟩ := h
    simp
  | succ n ih =>
    intro s s1 rs hw h hno
    obtain ⟨r, t, rs1, hp, hq, rfl⟩ := pullSeq_succ_inv env n s s1 rs h
    have hf := pull_frame env s t r hp
    have hc := (pull_counter env s t r hw (hu _).2 hp).2
      (hno r (List.mem_cons_self _ _))
    have hwt : NonnegRates t := by
      unfold NonnegRates
      rw [hf.1]
      exact hw
    have := ih t s1 rs1 hwt hq (fun x hx => hno x (List.mem_cons_of_mem _ hx))
    refine ⟨?_, ?_, ?_, ?_⟩
    · rw [this.1, hc.1]
      push_cast
      ring
    · rw [this.2.1, hf.1]
    · rw [this.2.2.1, hf.2.1]
    · rw [this.2.2.2, hf.2.2.2.2.1]

theorem pullSeq_total (env : Env) :
    ∀ (k : Nat) (s : GachaSystem), 0 ≤ s.pullCount → s.pullCount + k < s.hardPity →
      ∃ rs s1, pullSeq env k s = some (rs, s1) := by
  intro k
  induction k with
  | zero =>
    intro s _ _
    exact ⟨[], s, rfl⟩
  | succ n ih =>
    intro s h0 hlt
    have hh : ¬ s.pullCount + 1 ≥ s.hardPity := by
      push_cast at hlt
      omega
    have hp := pull_natural env s hh
    obtain ⟨rs, s1, hq⟩ := ih _
      (show 0 ≤ ({ s with
          pullCount :=
            if (naturalRoll env s (s.pullCount + 1)).1 = "SSR" then 0 else s.pullCount + 1
          history := s.history ++ [(naturalRoll env s (s.pullCount + 1)).2.1]
          rngPos := (naturalRoll env s (s.pullCount + 1)).2.2 } : GachaSystem).pullCount by
        simp only
        split <;> omega)
      (by
        simp only
        push_cast at hlt
        split <;> omega)
    exact ⟨_, s1, pullSeq_succ_eq env n s _ s1 _ rs hp hq⟩

/-! ## Evaluation at the concrete inputs -/

theorem unitStream_highEnv : UnitStream highEnv := by
  intro k
  simp only [highEnv]
  norm_num

theorem unitStream_zeroEnv : UnitStream zeroEnv := by
  intro k
  simp only [zeroEnv]
  norm_num

theorem nonnegRates_oneSSR : NonnegRates oneSSR := by
  intro c hc
  simp [oneSSR, setPitySettings, addCharacter, recalculateTotalRates, GachaSystem.new] at hc
  subst hc
  norm_num

theorem nonnegRates_oneSSR2 : NonnegRates oneSSR2 := nonnegRates_oneSSR

theorem pull_highEnv_oneSSR :
    pull highEnv oneSSR = some (⟨"Common Item", "Common", false, 1⟩, oneSSR1) := by
  have e1 : ("Common" : String) ++ " Item" = "Common Item" := by decide
  have e2 : ¬ ("SSR" : String) = "Common" := by decide
  have e3 : ¬ ("Common" : String) = "SSR" := by decide
  norm_num [pull, oneSSR1, oneSSR, highEnv, naturalRoll, addCharacter, setPitySettings,
    GachaSystem.new, recalculateTotalRates, selectRarity, ssrRateMultiplier, normalizedSSRRate,
    normalizedSRRate, normalizedRRate, adjustedSSRRate, totalRate, rarityChars, totalRarityRate,
    pickCharacter, addToTotal, e1, e2, e3]

theorem pull_highEnv_oneSSR1 :
    pull highEnv oneSSR1 = some (⟨"Common Item", "Common", false, 2⟩, oneSSR2) := by
  have e1 : ("Common" : String) ++ " Item" = "Common Item" := by decide
  have e2 : ¬ ("SSR" : String) = "Common" := by decide
  have e3 : ¬ ("Common" : String) = "SSR" := by decide
  norm_num [pull, oneSSR2, oneSSR1, oneSSR, highEnv, naturalRoll, addCharacter, setPitySettings,
    GachaSystem.new, recalculateTotalRates, selectRarity, ssrRateMultiplier, normalizedSSRRate,
    normalizedSRRate, normalizedRRate, adjustedSSRRate, totalRate, rarityChars, totalRarityRate,
    pickCharacter, addToTotal, e1, e2, e3]

theorem pull_highEnv_oneSSR2 :
    pull highEnv oneSSR2 = some (⟨"A", "SSR", true, 3⟩, oneSSR3) := by
  norm_num [pull, oneSSR3, oneSSR2, oneSSR, selectedCharacter, addCharacter, setPitySettings,
    GachaSystem.new, recalculateTotalRates, addToTotal]

theorem pullSeq_highEnv_oneSSR :
    pullSeq highEnv 2 oneSSR =
      some ([⟨"Common Item", "Common", false, 1⟩, ⟨"Common Item", "Common", false, 2⟩],
        oneSSR2) :=
  pullSeq_succ_eq highEnv 1 oneSSR oneSSR1 oneSSR2 _ _ pull_highEnv_oneSSR
    (pullSeq_succ_eq highEnv 0 oneSSR1 oneSSR2 oneSSR2 _ _ pull_highEnv_oneSSR1 rfl)

theorem pull_zeroEnv_negSSR : pull zeroEnv negSSR = some (⟨"", "", false, 0⟩, negSSR1) := by
  norm_num [pull, negSSR1, negSSR, zeroEnv, naturalRoll, addCharacter, setPitySettings,
    GachaSystem.new, recalculateTotalRates, selectRarity, ssrRateMultiplier, normalizedSSRRate,
    normalizedSRRate, normalizedRRate, adjustedSSRRate, totalRate, rarityChars, totalRarityRate,
    pickCharacter, addToTotal]

theorem pull_zeroEnv_negSSR1 : pull zeroEnv negSSR1 = some (⟨"", "", false, 0⟩, negSSR2) := by
  norm_num [pull, negSSR2, negSSR1, negSSR, zeroEnv, naturalRoll, addCharacter, setPitySettings,
    GachaSystem.new, recalculateTotalRates, selectRarity, ssrRateMultiplier, normalizedSSRRate,
    normalizedSRRate, normalizedRRate, adjustedSSRRate, totalRate, rarityChars, totalRarityRate,
    pickCharacter, addToTotal]

theorem unitStream_zeroEnvWith (b : Nat → Bool) (n : Nat → Int) :
    UnitStream (zeroEnvWith b n) := by
  intro k
  simp only [zeroEnvWith]
  norm_num

theorem selected_zeroEnvWith_negSSR (b : Nat → Bool) (n : Nat → Int) :
    (naturalRoll (zeroEnvWith b n) negSSR (negSSR.pullCount + 1)).1 = "SSR" := by
  norm_num [negSSR, zeroEnvWith, naturalRoll, addCharacter, setPitySettings,
    GachaSystem.new, recalculateTotalRates, selectRarity, ssrRateMultiplier, normalizedSSRRate,
    normalizedSRRate, normalizedRRate, adjustedSSRRate, totalRate, rarityChars, totalRarityRate,
    pickCharacter, addToTotal]

theorem pull_zeroEnvWith_negSSR (b : Nat → Bool) (n : Nat → Int) :
    pull (zeroEnvWith b n) negSSR = some (⟨"", "", b 0, n 0⟩, negSSR1With b n) := by
  norm_num [pull, negSSR1With, negSSR, zeroEnvWith, naturalRoll, addCharacter, setPitySettings,
    GachaSystem.new, recalculateTotalRates, selectRarity, ssrRateMultiplier, normalizedSSRRate,
    normalizedSRRate, normalizedRRate, adjustedSSRRate, totalRate, rarityChars, totalRarityRate,
    pickCharacter, addToTotal]

theorem pull_zeroEnvWith_negSSR1 (b : Nat → Bool) (n : Nat → Int) :
    pull (zeroEnvWith b n) (negSSR1With b n) =
      some (⟨"", "", b 1, n 1⟩, negSSR2With b n) := by
  norm_num [pull, negSSR2With, negSSR1With, negSSR, zeroEnvWith, naturalRoll, addCharacter,
    setPitySettings, GachaSystem.new, recalculateTotalRates, selectRarity, ssrRateMultiplier,
    normalizedSSRRate, normalizedSRRate, normalizedRRate, adjustedSSRRate, totalRate,
    rarityChars, totalRarityRate, pickCharacter, addToTotal]

/-! ## Reachable states -/

theorem setPitySettings_valid (s : GachaSystem) (h sp : Int) (m : ℚ)
    (hv : h > 0 ∧ sp > 0 ∧ sp < h ∧ m > 1) :
    setPitySettings s h sp m =
      { s with hardPity := h, softPityStart := sp, softPityBoost := m } := by
  unfold setPitySettings
  rw [if_pos hv]

theorem setPitySettings_invalid (s : GachaSystem) (h sp : Int) (m : ℚ)
    (hv : ¬ (h > 0 ∧ sp > 0 ∧ sp < h ∧ m > 1)) : setPitySettings s h sp m = s := by
  unfold setPitySettings
  rw [if_neg hv]

theorem findSSRByName_lt (name : String) :
    ∀ (cs : List Character) (k i : Nat), findSSRByName name cs k = some i →
      k ≤ i ∧ i < k + cs.length := by
  intro cs
  induction cs with
  | nil =>
    intro k i h
    simp [findSSRByName] at h
  | cons c cs ih =>
    intro k i h
    unfold findSSRByName at h
    split at h
    · simp only [Option.some.injEq] at h
      subst h
      simp
    · have := ih (k + 1) i h
      simp only [List.length_cons]
      omega

/-- The pity configuration is valid, the counter is not negative, and the selected
index is 0 or a valid catalog index, in every reachable state. -/
theorem reachable_inv (env : Env) (s : GachaSystem) (h : Reachable env s) :
    (0 < s.softPityStart ∧ s.softPityStart < s.hardPity ∧ 1 < s.softPityBoost) ∧
    0 ≤ s.pullCount ∧
    0 ≤ s.selectedCharPity ∧ (s.selectedCharPity = 0 ∨ s.selectedCharPity < s.characters.length) := by
  induction h with
  | new =>
    norm_num [GachaSystem.new, recalculateTotalRates]
  | addCharacter name rarity rate title element _ ih =>
    obtain ⟨h1, h2, h3, h4⟩ := ih
    refine ⟨h1, h2, h3, ?_⟩
    rcases h4 with h4 | h4
    · exact Or.inl h4
    · right
      simp only [addCharacter, recalculateTotalRates, List.length_append, List.length_singleton]
      push_cast
      omega
  | @setPitySettings s hv sp m _ ih =>
    by_cases hval : hv > 0 ∧ sp > 0 ∧ sp < hv ∧ m > 1
    · rw [setPitySettings_valid s hv sp m hval]
      exact ⟨⟨hval.2.1, hval.2.2.1, hval.2.2.2⟩, ih.2⟩
    · rw [setPitySettings_invalid s hv sp m hval]
      exact ih
  | @setSelectedCharPity s index _ ih =>
    unfold Gacha.setSelectedCharPity
    split
    · rename_i hi
      exact ⟨ih.1, ih.2.1, hi.1, Or.inr hi.2⟩
    · exact ih
  | @setSelectedCharPityByName s name _ ih =>
    unfold Gacha.setSelectedCharPityByName
    split
    · rename_i i hi
      have := findSSRByName_lt name s.characters 0 i hi
      refine ⟨ih.1, ih.2.1, ?_, Or.inr ?_⟩
      · simp
      · simp only
        omega
    · exact ih
  | @pull s s1 r _ hp ih =>
    obtain ⟨hc, hh, hs, hb, hsel, -⟩ := pull_frame env s s1 r hp
    rw [hc, hh, hs, hb, hsel]
    refine ⟨ih.1, ?_, ih.2.2⟩
    by_cases hhard : s.pullCount + 1 ≥ s.hardPity
    · cases hsc : selectedCharacter s with
      | none => simp [Gacha.pull, hhard, hsc] at hp
      | some c =>
        rw [pull_hard env s hhard c hsc] at hp
        simp only [Option.some.injEq, Prod.mk.injEq] at hp
        obtain ⟨-, rfl⟩ := hp
        simp
    · rw [pull_natural env s hhard] at hp
      simp only [Option.some.injEq, Prod.mk.injEq] at hp
      obtain ⟨-, rfl⟩ := hp
      have := ih.2.1
      simp only
      split <;> omega

/-- The counter after any draw that returns: zero, or one more than before and
below the threshold. -/
theorem pull_counter_cases (env : Env) (s s1 : GachaSystem) (r : GachaResult)
    (h : pull env s = some (r, s1)) :
    s1.pullCount = 0 ∨ (s1.pullCount = s.pullCount + 1 ∧ s.pullCount + 1 < s.hardPity) := by
  by_cases hhard : s.pullCount + 1 ≥ s.hardPity
  · cases hsc : selectedCharacter s with
    | none => simp [pull, hhard, hsc] at h
    | some c =>
      rw [pull_hard env s hhard c hsc] at h
      simp only [Option.some.injEq, Prod.mk.injEq] at h
      obtain ⟨-, rfl⟩ := h
      exact Or.inl rfl
  · rw [pull_natural env s hhard] at h
    simp only [Option.some.injEq, Prod.mk.injEq] at h
    obtain ⟨-, rfl⟩ := h
    simp only
    split
    · exact Or.inl rfl
    · exact Or.inr ⟨rfl, by omega⟩

/-! ## Hard pity -/

/-- The hard-pity guarantee on catalogs without a negative rate: for a valid pity
configuration, a catalog with non-negative rates in which `selectedCharPity`
is a valid index, a state with `pullCount = 0` and a stream with values in
`[0, 1)`, the first `hardPity - 1` calls of `pull` all return, and if none of
their results has rarity `"SSR"`, call number `hardPity` returns the entry at
`selectedCharPity` with rarity `"SSR"`, `isPity = true` and
`pullNumber = hardPity`, and `pullCount` is 0 afterwards. -/
theorem hard_pity_guarantee (env : Env) (s : GachaSystem)
    (hcfg : 0 < s.softPityStart ∧ s.softPityStart < s.hardPity ∧ 1 < s.softPityBoost)
    (hsel : 0 ≤ s.selectedCharPity ∧ s.selectedCharPity < s.characters.length)
    (hw : NonnegRates s) (hpc : s.pullCount = 0) (hu : UnitStream env) :
    ∃ rs s1, pullSeq env (s.hardPity - 1).toNat s = some (rs, s1) ∧
      ((∀ r ∈ rs, r.rarity ≠ "SSR") →
        ∃ c s2, selectedCharacter s = some c ∧
          pull env s1 =
            some ({ item := c.name, rarity := "SSR", isPity := true, pullNumber := s.hardPity },
              s2) ∧
          s2.pullCount = 0) := by
  have hh : 0 < s.hardPity := by omega
  obtain ⟨rs, s1, hseq⟩ := pullSeq_total env (s.hardPity - 1).toNat s (by omega) (by omega)
  refine ⟨rs, s1, hseq, fun hno => ?_⟩
  obtain ⟨hpc1, hch, hhp, hsl⟩ := pullSeq_noSSR env hu _ s s1 rs hw hseq hno
  obtain ⟨c, hc⟩ := selectedCharacter_isSome s hsel
  have hc1 : selectedCharacter s1 = some c := by
    unfold selectedCharacter at hc ⊢
    rw [hsl, hch]
    exact hc
  have hcount : s1.pullCount + 1 = s.hardPity := by
    rw [hpc1, hpc]
    omega
  have hge : s1.pullCount + 1 ≥ s1.hardPity := by
    rw [hhp, hcount]
  have hp := pull_hard env s1 hge c hc1
  rw [hcount] at hp
  exact ⟨c, _, hc, hp, rfl⟩

/-- The hard-pity guarantee at `oneSSR` on `highEnv`: two draws without `"SSR"`, then
the third draw is the guaranteed one. -/
theorem hard_pity_guarantee_witness :
    pullSeq highEnv 2 oneSSR =
      some ([⟨"Common Item", "Common", false, 1⟩, ⟨"Common Item", "Common", false, 2⟩],
        oneSSR2) ∧
    ∃ s2, pull highEnv oneSSR2 = some (⟨"A", "SSR", true, 3⟩, s2) ∧ s2.pullCount = 0 := by
  have hcfg : 0 < oneSSR.softPityStart ∧ oneSSR.softPityStart < oneSSR.hardPity ∧
      1 < oneSSR.softPityBoost := by
    norm_num [oneSSR, setPitySettings]
  have hsel : 0 ≤ oneSSR.selectedCharPity ∧
      oneSSR.selectedCharPity < oneSSR.characters.length := by
    norm_num [oneSSR, setPitySettings, addCharacter, recalculateTotalRates, GachaSystem.new]
  have hhp : (oneSSR.hardPity - 1).toNat = 2 := by
    norm_num [oneSSR, setPitySettings]
    rfl
  have hpc : oneSSR.pullCount = 0 := by
    norm_num [oneSSR, setPitySettings, addCharacter, recalculateTotalRates, GachaSystem.new]
  obtain ⟨rs, s1, hseq, himp⟩ :=
    hard_pity_guarantee highEnv oneSSR hcfg hsel nonnegRates_oneSSR hpc unitStream_highEnv
  rw [hhp, pullSeq_highEnv_oneSSR] at hseq
  simp only [Option.some.injEq, Prod.mk.injEq] at hseq
  obtain ⟨rfl, rfl⟩ := hseq
  refine ⟨pullSeq_highEnv_oneSSR, ?_⟩
  obtain ⟨c, s2, hc, hp, h0⟩ := himp (by
    intro r hr
    simp only [List.mem_cons, List.mem_singleton, List.not_mem_nil, or_false] at hr
    rcases hr with rfl | rfl <;> decide)
  have hcA : c.name = "A" := by
    norm_num [selectedCharacter, oneSSR, setPitySettings, addCharacter, recalculateTotalRates,
      GachaSystem.new] at hc
    rw [← hc]
  have hh3 : oneSSR.hardPity = 3 := by
    norm_num [oneSSR, setPitySettings]
  rw [hcA, hh3] at hp
  exact ⟨s2, hp, h0⟩

/-- C1 fails on the code at `negSSR` (one `"SSR"` entry `"X"` of rate -1, hard pity 2,
soft pity from 1) on a stream of zeros, whatever the indeterminate scalars
`b`, `n` hold. The configuration is valid, the catalog is not empty,
`pullCount = 0` and the stream stays in `[0, 1)`. The one draw before the
threshold selects the tier `"SSR"` and resets the counter, but the item walk
ends without its `break`, so the returned result is the unassigned one, of
rarity `""` and not `"SSR"`. Draw number `hardPity = 2` does the same: it
returns neither the name of the entry at `selectedCharPity` nor rarity
`"SSR"`. -/
theorem hard_pity_missed :
    (0 < negSSR.softPityStart ∧ negSSR.softPityStart < negSSR.hardPity ∧
      1 < negSSR.softPityBoost) ∧
    negSSR.characters ≠ [] ∧ negSSR.pullCount = 0 ∧
    selectedCharacter negSSR = some ⟨"X", "SSR", -1, "", ""⟩ ∧
    (negSSR.hardPity - 1).toNat = 1 ∧
    ∀ (b : Nat → Bool) (n : Nat → Int),
      UnitStream (zeroEnvWith b n) ∧
      (naturalRoll (zeroEnvWith b n) negSSR (negSSR.pullCount + 1)).1 = "SSR" ∧
      pullSeq (zeroEnvWith b n) 1 negSSR = some ([⟨"", "", b 0, n 0⟩], negSSR1With b n) ∧
      (⟨"", "", b 0, n 0⟩ : GachaResult).rarity ≠ "SSR" ∧
      (negSSR1With b n).pullCount = 0 ∧
      pull (zeroEnvWith b n) (negSSR1With b n) = some (⟨"", "", b 1, n 1⟩, negSSR2With b n) ∧
      (⟨"", "", b 1, n 1⟩ : GachaResult).item ≠ "X" ∧
      (⟨"", "", b 1, n 1⟩ : GachaResult).rarity ≠ "SSR" := by
  refine ⟨?_, ?_, ?_, ?_, ?_, fun b n => ?_⟩
  · norm_num [negSSR, setPitySettings]
  · norm_num [negSSR, setPitySettings, addCharacter, recalculateTotalRates, GachaSystem.new]
  · norm_num [negSSR, setPitySettings, addCharacter, recalculateTotalRates, GachaSystem.new]
  · norm_num [selectedCharacter, negSSR, setPitySettings, addCharacter, recalculateTotalRates,
      GachaSystem.new]
  · norm_num [negSSR, setPitySettings]
  · have e1 : ("" : String) ≠ "SSR" := by decide
    have e2 : ("" : String) ≠ "X" := by decide
    refine ⟨unitStream_zeroEnvWith b n, selected_zeroEnvWith_negSSR b n, ?_, e1, rfl,
      pull_zeroEnvWith_negSSR1 b n, e2, e1⟩
    exact pullSeq_succ_eq (zeroEnvWith b n) 0 negSSR (negSSR1With b n) (negSSR1With b n) _ _
      (pull_zeroEnvWith_negSSR b n) rfl

/-! ## Counter update -/

/-- C2: with non-negative rates and stream values in `[0, 1)`, after `pull` the
counter `pullCount` is 0 if the returned result has rarity `"SSR"` (hard pity
or natural roll) and is otherwise the previous `pullCount` plus one. -/
theorem pull_counter_update (env : Env) (s s1 : GachaSystem) (r : GachaResult)
    (hw : NonnegRates s) (hu : UnitStream env) (h : pull env s = some (r, s1)) :
    (r.rarity = "SSR" → s1.pullCount = 0) ∧
    (r.rarity ≠ "SSR" → s1.pullCount = s.pullCount + 1) := by
  obtain ⟨h1, h2⟩ := pull_counter env s s1 r hw (hu _).2 h
  exact ⟨h1, fun hne => (h2 hne).1⟩

/-- C2 at concrete draws on `highEnv`: the first draw of `oneSSR` is not `"SSR"` and
moves the counter from 0 to 1; the third draw is `"SSR"` and sets it to 0. -/
theorem pull_counter_update_witness :
    pull highEnv oneSSR = some (⟨"Common Item", "Common", false, 1⟩, oneSSR1) ∧
    oneSSR1.pullCount = oneSSR.pullCount + 1 ∧
    pull highEnv oneSSR2 = some (⟨"A", "SSR", true, 3⟩, oneSSR3) ∧
    oneSSR3.pullCount = 0 :=
  ⟨pull_highEnv_oneSSR,
    (pull_counter_update highEnv oneSSR oneSSR1 _ nonnegRates_oneSSR unitStream_highEnv
      pull_highEnv_oneSSR).2 (by decide),
    pull_highEnv_oneSSR2,
    (pull_counter_update highEnv oneSSR2 oneSSR3 _ nonnegRates_oneSSR2 unitStream_highEnv
      pull_highEnv_oneSSR2).1 rfl⟩

/-! ## Counter bound -/

theorem reachable_oneSSR2 : Reachable highEnv oneSSR2 :=
  Reachable.pull
    (Reachable.pull
      (Reachable.setPitySettings 3 2 5 (Reachable.addCharacter "A" "SSR" 1 "" "" Reachable.new))
      pull_highEnv_oneSSR)
    pull_highEnv_oneSSR1

theorem pull_highEnv_lowered : pull highEnv lowered = some (⟨"A", "SSR", true, 3⟩, lowered1) := by
  norm_num [pull, lowered1, lowered, oneSSR2, oneSSR, selectedCharacter, addCharacter,
    setPitySettings, GachaSystem.new, recalculateTotalRates, addToTotal]

/-- C3: in every state reachable from the constructor through `addCharacter`,
`setPitySettings`, `setSelectedCharPity`, `setSelectedCharPityByName` and
`pull`, the counter satisfies `0 <= pullCount < hardPity` right after a
`pull` (also when `hardPity` was lowered to or below the counter before). -/
theorem pull_counter_bound (env : Env) (s s1 : GachaSystem) (r : GachaResult)
    (hreach : Reachable env s) (h : pull env s = some (r, s1)) :
    0 ≤ s1.pullCount ∧ s1.pullCount < s1.hardPity := by
  obtain ⟨⟨h1, h2, -⟩, h3, -⟩ := reachable_inv env s hreach
  have hh := (pull_frame env s s1 r h).2.1
  rcases pull_counter_cases env s s1 r h with h0 | ⟨h0, hlt⟩
  · rw [h0, hh]
    exact ⟨le_refl 0, by omega⟩
  · rw [h0, hh]
    exact ⟨by omega, hlt⟩

/-- C3 at a state whose threshold was lowered to the value of the counter:
`lowered` has `pullCount = 2 = hardPity`, and after the draw the counter is
back inside `[0, hardPity)`. -/
theorem pull_counter_bound_witness :
    lowered.hardPity ≤ lowered.pullCount ∧
    pull highEnv lowered = some (⟨"A", "SSR", true, 3⟩, lowered1) ∧
    0 ≤ lowered1.pullCount ∧ lowered1.pullCount < lowered1.hardPity :=
  ⟨by norm_num [lowered, oneSSR2, oneSSR, setPitySettings], pull_highEnv_lowered,
    pull_counter_bound highEnv lowered lowered1 _
      (Reachable.setPitySettings 2 1 2 reachable_oneSSR2) pull_highEnv_lowered⟩

/-! ## Pity configuration -/

/-- C4: `setPitySettings(h, s, m)` stores the three values together when
`h > 0`, `s > 0`, `s < h` and `m > 1`, and otherwise leaves the whole state as
it was; so `0 < softPityStart < hardPity` and `softPityBoost > 1` hold in
every reachable state, and there the three members equal the arguments after
the call exactly when the arguments are valid. -/
theorem setPitySettings_validated (s : GachaSystem) (h sp : Int) (m : ℚ) :
    ((h > 0 ∧ sp > 0 ∧ sp < h ∧ m > 1) →
      setPitySettings s h sp m =
        { s with hardPity := h, softPityStart := sp, softPityBoost := m }) ∧
    (¬ (h > 0 ∧ sp > 0 ∧ sp < h ∧ m > 1) → setPitySettings s h sp m = s) ∧
    (∀ env, Reachable env s →
      (0 < s.softPityStart ∧ s.softPityStart < s.hardPity ∧ 1 < s.softPityBoost) ∧
      (((setPitySettings s h sp m).hardPity = h ∧ (setPitySettings s h sp m).softPityStart = sp ∧
          (setPitySettings s h sp m).softPityBoost = m) ↔
        (h > 0 ∧ sp > 0 ∧ sp < h ∧ m > 1))) := by
  refine ⟨setPitySettings_valid s h sp m, setPitySettings_invalid s h sp m, ?_⟩
  intro env hreach
  have hcfg := (reachable_inv env s hreach).1
  refine ⟨hcfg, ?_, ?_⟩
  · intro heq
    by_contra hv
    rw [setPitySettings_invalid s h sp m hv] at heq
    obtain ⟨e1, e2, e3⟩ := heq
    rw [e1, e2, e3] at hcfg
    exact hv ⟨by omega, hcfg.1, hcfg.2.1, hcfg.2.2⟩
  · intro hv
    rw [setPitySettings_valid s h sp m hv]
    exact ⟨rfl, rfl, rfl⟩

/-! ## Guaranteed item by name -/

theorem findSSRByName_some (name : String) :
    ∀ (cs : List Character) (k i : Nat), findSSRByName name cs k = some i →
      ∃ j, i = k + j ∧
        (∃ c, cs.get? j = some c ∧ c.name = name ∧ c.rarity = "SSR") ∧
        ∀ l, l < j → ∀ d, cs.get? l = some d → ¬ (d.name = name ∧ d.rarity = "SSR") := by
  intro cs
  induction cs with
  | nil =>
    intro k i h
    simp [findSSRByName] at h
  | cons c cs ih =>
    intro k i h
    unfold findSSRByName at h
    split at h
    · rename_i hc
      simp only [Option.some.injEq] at h
      subst h
      exact ⟨0, rfl, ⟨c, rfl, hc⟩, fun l hl => absurd hl (Nat.not_lt_zero l)⟩
    · rename_i hc
      obtain ⟨j, hj, hfound, hfirst⟩ := ih (k + 1) i h
      refine ⟨j + 1, by omega, by simpa using hfound, ?_⟩
      intro l hl d hd
      cases l with
      | zero =>
        simp only [List.get?_cons_zero, Option.some.injEq] at hd
        subst hd
        exact hc
      | succ l => exact hfirst l (by omega) d (by simpa using hd)

theorem findSSRByName_none (name : String) :
    ∀ (cs : List Character) (k : Nat), findSSRByName name cs k = none →
      ∀ c ∈ cs, ¬ (c.name = name ∧ c.rarity = "SSR") := by
  intro cs
  induction cs with
  | nil =>
    intro k _ c hc
    simp at hc
  | cons d ds ih =>
    intro k h c hc
    unfold findSSRByName at h
    split at h
    · simp at h
    · rename_i hd
      rcases List.mem_cons.mp hc with rfl | hmem
      · exact hd
      · exact ih (k + 1) h c hmem

/-- C5: `setSelectedCharPityByName(name)` returns true exactly when the catalog has
an entry with that name and rarity `"SSR"`; then `selectedCharPity` becomes the
index of the first such entry in catalog order and nothing else changes; when
it returns false the state is unchanged. -/
theorem setSelectedCharPityByName_spec (s : GachaSystem) (name : String) :
    ((setSelectedCharPityByName s name).1 = true ↔
      ∃ c ∈ s.characters, c.name = name ∧ c.rarity = "SSR") ∧
    ((setSelectedCharPityByName s name).1 = true →
      ∃ i : Nat,
        (∃ c, s.characters.get? i = some c ∧ c.name = name ∧ c.rarity = "SSR") ∧
        (∀ l, l < i → ∀ d, s.characters.get? l = some d → ¬ (d.name = name ∧ d.rarity = "SSR")) ∧
        (setSelectedCharPityByName s name).2 = { s with selectedCharPity := (i : Int) }) ∧
    ((setSelectedCharPityByName s name).1 = false → (setSelectedCharPityByName s name).2 = s) := by
  unfold setSelectedCharPityByName
  cases hf : findSSRByName name s.characters 0 with
  | none =>
    have hnone := findSSRByName_none name s.characters 0 hf
    refine ⟨⟨fun h => by simp at h, fun ⟨c, hc, hm⟩ => absurd hm (hnone c hc)⟩,
      fun h => by simp at h, fun _ => rfl⟩
  | some i =>
    obtain ⟨j, hj, hfound, hfirst⟩ := findSSRByName_some name s.characters 0 i hf
    have hij : i = j := by omega
    subst hij
    refine ⟨⟨fun _ => ?_, fun _ => rfl⟩, fun _ => ⟨i, hfound, hfirst, rfl⟩, fun h => by simp at h⟩
    obtain ⟨c, hc, hm⟩ := hfound
    exact ⟨c, List.get?_mem hc, hm⟩

/-- C4 at the constructor's state: soft start 100 with hard threshold 100 is
rejected and the state stays as it was; (5, 3, 5) is stored. -/
theorem setPitySettings_validated_witness :
    setPitySettings GachaSystem.new 100 100 2 = GachaSystem.new ∧
    setPitySettings GachaSystem.new 5 3 5 =
      { GachaSystem.new with hardPity := 5, softPityStart := 3, softPityBoost := 5 } :=
  ⟨(setPitySettings_validated GachaSystem.new 100 100 2).2.1 (by norm_num),
    (setPitySettings_validated GachaSystem.new 5 3 5).1 (by norm_num)⟩

/-- C5 at the catalog `twoB`: the name `"B"` is found at index 1, the first entry
named `"B"` with rarity `"SSR"` (index 0 is a mid-tier `"B"`); the name
`"Z"` is not found and the state stays as it was. -/
theorem setSelectedCharPityByName_spec_witness :
    (setSelectedCharPityByName twoB "B").1 = true ∧
    (setSelectedCharPityByName twoB "B").2 = { twoB with selectedCharPity := 1 } ∧
    (setSelectedCharPityByName twoB "Z").2 = twoB := by
  have e1 : ¬ ("SR" : String) = "SSR" := by decide
  have e2 : ¬ ("B" : String) = "Z" := by decide
  have e3 : ¬ ("C" : String) = "Z" := by decide
  have hB : (setSelectedCharPityByName twoB "B").1 = true :=
    (setSelectedCharPityByName_spec twoB "B").1.mpr
      ⟨⟨"B", "SSR", 1, "", ""⟩, by
        simp [twoB, addCharacter, recalculateTotalRates, GachaSystem.new], rfl, rfl⟩
  refine ⟨hB, ?_, ?_⟩
  · simp [setSelectedCharPityByName, findSSRByName, twoB, addCharacter, recalculateTotalRates,
      GachaSystem.new, e1]
  · apply (setSelectedCharPityByName_spec twoB "Z").2.2
    simp [setSelectedCharPityByName, findSSRByName, twoB, addCharacter, recalculateTotalRates,
      GachaSystem.new, e1, e2, e3]

/-! ## The guaranteed item -/

theorem pull_highEnv_byIndex :
    pull highEnv byIndex = some (⟨"Common Item", "Common", false, 1⟩, byIndex1) := by
  have e1 : ("Common" : String) ++ " Item" = "Common Item" := by decide
  have e2 : ¬ ("SSR" : String) = "Common" := by decide
  have e3 : ¬ ("Common" : String) = "SSR" := by decide
  have e4 : ¬ ("SR" : String) = "Common" := by decide
  norm_num [pull, byIndex1, byIndex, highEnv, naturalRoll, addCharacter, setPitySettings,
    setSelectedCharPity, GachaSystem.new, recalculateTotalRates, selectRarity, ssrRateMultiplier,
    normalizedSSRRate, normalizedSRRate, normalizedRRate, adjustedSSRRate, totalRate, rarityChars,
    totalRarityRate, pickCharacter, addToTotal, e1, e2, e3, e4]

theorem pull_highEnv_byIndex1 :
    pull highEnv byIndex1 = some (⟨"Axel", "SSR", true, 2⟩, byIndex2) := by
  norm_num [pull, byIndex2, byIndex1, byIndex, selectedCharacter, addCharacter, setPitySettings,
    setSelectedCharPity, GachaSystem.new, recalculateTotalRates, addToTotal]

/-- C6 fails on the code. In the reachable state `byIndex1` the catalog has the
top-tier entry `"razib"`, yet `setSelectedCharPity(1)` made the mid-tier entry
`"Axel"` the selected one and the hard-pity draw returns `"Axel"` labelled
`"SSR"`; and in `srFirst`, where no setter was called, the selected entry is
the mid-tier `"Axel"` that was added first, not the first top-tier entry. -/
theorem selected_entry_not_top_tier :
    Reachable highEnv byIndex1 ∧
    (∃ c ∈ byIndex1.characters, c.rarity = "SSR") ∧
    selectedCharacter byIndex1 = some ⟨"Axel", "SR", 15 / 1000, "", ""⟩ ∧
    pull highEnv byIndex1 = some (⟨"Axel", "SSR", true, 2⟩, byIndex2) ∧
    Reachable highEnv srFirst ∧
    (∃ c ∈ srFirst.characters, c.rarity = "SSR") ∧
    selectedCharacter srFirst = some ⟨"Axel", "SR", 15 / 1000, "", ""⟩ := by
  refine ⟨?_, ?_, ?_, pull_highEnv_byIndex1, ?_, ?_, ?_⟩
  · exact Reachable.pull
      (Reachable.setPitySettings 2 1 2
        (Reachable.setSelectedCharPity 1
          (Reachable.addCharacter "Axel" "SR" (15 / 1000) "" ""
            (Reachable.addCharacter "razib" "SSR" (4 / 1000) "" "" Reachable.new))))
      pull_highEnv_byIndex
  · exact ⟨⟨"razib", "SSR", 4 / 1000, "", ""⟩, by
      simp [byIndex1, byIndex, setPitySettings, setSelectedCharPity, addCharacter,
        recalculateTotalRates, GachaSystem.new], rfl⟩
  · norm_num [selectedCharacter, byIndex1, byIndex, setPitySettings, setSelectedCharPity,
      addCharacter, recalculateTotalRates, GachaSystem.new]
  · exact Reachable.addCharacter "razib" "SSR" (4 / 1000) "" ""
      (Reachable.addCharacter "Axel" "SR" (15 / 1000) "" "" Reachable.new)
  · exact ⟨⟨"razib", "SSR", 4 / 1000, "", ""⟩, by
      simp [srFirst, addCharacter, recalculateTotalRates, GachaSystem.new], rfl⟩
  · norm_num [selectedCharacter, srFirst, addCharacter, recalculateTotalRates, GachaSystem.new]

/-! ## Batch draw -/

theorem multiPullLoop_eq (env : Env) (count : Int) :
    ∀ (n : Nat) (i : Int) (results : List GachaResult) (s : GachaSystem),
      (count - i).toNat = n →
      multiPullLoop env count i results s =
        (pullSeq env n s).map (fun p => (results ++ p.1, p.2)) := by
  intro n
  induction n with
  | zero =>
    intro i results s hn
    have hlt : ¬ i < count := by omega
    rw [multiPullLoop, if_neg hlt]
    simp [pullSeq]
  | succ n ih =>
    intro i results s hn
    have hlt : i < count := by omega
    rw [multiPullLoop, if_pos hlt]
    unfold pullSeq
    cases hp : pull env s with
    | none => rfl
    | some p =>
      obtain ⟨r, s1⟩ := p
      simp only
      rw [ih (i + 1) (results ++ [r]) s1 (by omega)]
      cases hq : pullSeq env n s1 with
      | none => rfl
      | some q =>
        obtain ⟨rs, s2⟩ := q
        simp

theorem pullSeq_length (env : Env) :
    ∀ (n : Nat) (s s1 : GachaSystem) (rs : List GachaResult),
      pullSeq env n s = some (rs, s1) → rs.length = n := by
  intro n
  induction n with
  | zero =>
    intro s s1 rs h
    simp only [pullSeq, Option.some.injEq, Prod.mk.injEq] at h
    rw [← h.1]
    rfl
  | succ n ih =>
    intro s s1 rs h
    obtain ⟨r, t, rs1, -, hq, rfl⟩ := pullSeq_succ_inv env n s s1 rs h
    simp [ih t s1 rs1 hq]

theorem pull_isSome_of_valid (env : Env) (s : GachaSystem)
    (hsel : 0 ≤ s.selectedCharPity ∧ s.selectedCharPity < s.characters.length) :
    ∃ r s1, pull env s = some (r, s1) := by
  by_cases hhard : s.pullCount + 1 ≥ s.hardPity
  · obtain ⟨c, hc⟩ := selectedCharacter_isSome s hsel
    exact ⟨_, _, pull_hard env s hhard c hc⟩
  · exact ⟨_, _, pull_natural env s hhard⟩

theorem pullSeq_isSome_of_valid (env : Env) :
    ∀ (n : Nat) (s : GachaSystem),
      (0 ≤ s.selectedCharPity ∧ s.selectedCharPity < s.characters.length) →
      ∃ rs s1, pullSeq env n s = some (rs, s1) := by
  intro n
  induction n with
  | zero =>
    intro s _
    exact ⟨[], s, rfl⟩
  | succ n ih =>
    intro s hsel
    obtain ⟨r, t, hp⟩ := pull_isSome_of_valid env s hsel
    obtain ⟨hc, -, -, -, hs, -⟩ := pull_frame env s t r hp
    obtain ⟨rs, s1, hq⟩ := ih t (by rw [hs, hc]; exact hsel)
    exact ⟨r :: rs, s1, pullSeq_succ_eq env n s t s1 r rs hp hq⟩

/-- C7: `multiPull(n)` is `max(n, 0)` successive calls of `pull` on the same
stream: it returns their results in call order and ends in their final state
(and has no defined result exactly when one of those calls has none); a
returned list has `max(n, 0)` entries; and with `selectedCharPity` a valid
catalog index it always returns. -/
theorem multiPull_eq_pullSeq (env : Env) (s : GachaSystem) (n : Int) :
    multiPull env s n = pullSeq env n.toNat s ∧
    (∀ rs s1, multiPull env s n = some (rs, s1) → (rs.length : Int) = max n 0) ∧
    ((0 ≤ s.selectedCharPity ∧ s.selectedCharPity < s.characters.length) →
      ∃ rs s1, multiPull env s n = some (rs, s1)) := by
  have heq : multiPull env s n = pullSeq env n.toNat s := by
    unfold multiPull
    rw [multiPullLoop_eq env n n.toNat 0 [] s (by simp)]
    cases pullSeq env n.toNat s with
    | none => rfl
    | some p => simp
  refine ⟨heq, ?_, ?_⟩
  · intro rs s1 h
    rw [heq] at h
    rw [pullSeq_length env _ s s1 rs h]
    omega
  · intro hsel
    rw [heq]
    exact pullSeq_isSome_of_valid env _ s hsel

/-- C7 at `oneSSR` on `highEnv`: `multiPull(2)` returns the two results of two
successive draws and ends in the state after them; `multiPull(-1)` returns
the empty list and leaves the state as it was. -/
theorem multiPull_eq_pullSeq_witness :
    multiPull highEnv oneSSR 2 =
      some ([⟨"Common Item", "Common", false, 1⟩, ⟨"Common Item", "Common", false, 2⟩],
        oneSSR2) ∧
    multiPull highEnv oneSSR (-1) = some ([], oneSSR) :=
  ⟨((multiPull_eq_pullSeq highEnv oneSSR 2).1).trans pullSeq_highEnv_oneSSR,
    (multiPull_eq_pullSeq highEnv oneSSR (-1)).1⟩

/-! ## Tier probabilities -/

/-- C8: for any rate table and either soft-pity state (the multiplier `pull`
computes for the incremented counter `pc`), if `totalRate` is not zero then the
normalised `"SSR"`, `"SR"` and `"R"` probabilities plus `rate(Common) / totalRate`
sum to exactly 1, and the mass left to the final `"Common"` branch,
`1 - (pSSR + pSR + pR)`, is `rate(Common) / totalRate`. -/
theorem normalized_sum_one (s : GachaSystem) (pc : Int)
    (h : totalRate s.rarityRates (ssrRateMultiplier s pc) ≠ 0) :
    normalizedSSRRate s.rarityRates (ssrRateMultiplier s pc)
        + normalizedSRRate s.rarityRates (ssrRateMultiplier s pc)
        + normalizedRRate s.rarityRates (ssrRateMultiplier s pc)
        + s.rarityRates.Common / totalRate s.rarityRates (ssrRateMultiplier s pc) = 1 ∧
    1 - (normalizedSSRRate s.rarityRates (ssrRateMultiplier s pc)
        + normalizedSRRate s.rarityRates (ssrRateMultiplier s pc)
        + normalizedRRate s.rarityRates (ssrRateMultiplier s pc)) =
      s.rarityRates.Common / totalRate s.rarityRates (ssrRateMultiplier s pc) := by
  have hsum : normalizedSSRRate s.rarityRates (ssrRateMultiplier s pc)
        + normalizedSRRate s.rarityRates (ssrRateMultiplier s pc)
        + normalizedRRate s.rarityRates (ssrRateMultiplier s pc)
        + s.rarityRates.Common / totalRate s.rarityRates (ssrRateMultiplier s pc) = 1 := by
    unfold normalizedSSRRate normalizedSRRate normalizedRRate
    rw [← add_div, ← add_div, ← add_div]
    exact div_self h
  exact ⟨hsum, by linarith⟩

/-- C8 at `oneSSR`: outside soft pity (`pc = 1`) the total is 1 and the left-over
mass is `79/100`; inside soft pity (`pc = 2`, boost 5) the total is `26/25`
and the left-over mass is `79/104`. -/
theorem normalized_sum_one_witness :
    1 - (normalizedSSRRate oneSSR.rarityRates (ssrRateMultiplier oneSSR 1)
        + normalizedSRRate oneSSR.rarityRates (ssrRateMultiplier oneSSR 1)
        + normalizedRRate oneSSR.rarityRates (ssrRateMultiplier oneSSR 1)) = 79 / 100 ∧
    1 - (normalizedSSRRate oneSSR.rarityRates (ssrRateMultiplier oneSSR 2)
        + normalizedSRRate oneSSR.rarityRates (ssrRateMultiplier oneSSR 2)
        + normalizedRRate oneSSR.rarityRates (ssrRateMultiplier oneSSR 2)) = 79 / 104 := by
  have t1 : totalRate oneSSR.rarityRates (ssrRateMultiplier oneSSR 1) = 1 := by
    norm_num [totalRate, adjustedSSRRate, ssrRateMultiplier, oneSSR, setPitySettings,
      addCharacter, recalculateTotalRates, GachaSystem.new]
  have t2 : totalRate oneSSR.rarityRates (ssrRateMultiplier oneSSR 2) = 26 / 25 := by
    norm_num [totalRate, adjustedSSRRate, ssrRateMultiplier, oneSSR, setPitySettings,
      addCharacter, recalculateTotalRates, GachaSystem.new]
  have c : oneSSR.rarityRates.Common = 79 / 100 := by
    norm_num [oneSSR, setPitySettings, addCharacter, recalculateTotalRates, GachaSystem.new]
  constructor
  · rw [(normalized_sum_one oneSSR 1 (by rw [t1]; norm_num)).2, t1, c]
    norm_num
  · rw [(normalized_sum_one oneSSR 2 (by rw [t2]; norm_num)).2, t2, c]
    norm_num

/-! ## Soft pity -/

/-- C9: with positive base rates and `softPityBoost > 1`, for the incremented
counter `pc` of a draw: if `pc >= softPityStart` the effective `"SSR"` rate is
`base * boost`, strictly above the base rate, and the normalised `"SSR"`
probability is strictly above the un-boosted one
`base / (base + SR + R + Common)`; if `pc < softPityStart` both equal the
un-boosted values. -/
theorem soft_pity_boost (s : GachaSystem) (pc : Int)
    (hpos : 0 < s.rarityRates.SSR ∧ 0 < s.rarityRates.SR ∧ 0 < s.rarityRates.R ∧
      0 < s.rarityRates.Common)
    (hb : 1 < s.softPityBoost) :
    (pc ≥ s.softPityStart →
      adjustedSSRRate s.rarityRates (ssrRateMultiplier s pc)
        = s.rarityRates.SSR * s.softPityBoost ∧
      s.rarityRates.SSR < adjustedSSRRate s.rarityRates (ssrRateMultiplier s pc) ∧
      s.rarityRates.SSR /
          (s.rarityRates.SSR + s.rarityRates.SR + s.rarityRates.R + s.rarityRates.Common)
        < normalizedSSRRate s.rarityRates (ssrRateMultiplier s pc)) ∧
    (pc < s.softPityStart →
      adjustedSSRRate s.rarityRates (ssrRateMultiplier s pc) = s.rarityRates.SSR ∧
      normalizedSSRRate s.rarityRates (ssrRateMultiplier s pc) =
        s.rarityRates.SSR /
          (s.rarityRates.SSR + s.rarityRates.SR + s.rarityRates.R + s.rarityRates.Common)) := by
  obtain ⟨h1, h2, h3, h4⟩ := hpos
  constructor
  · intro hge
    have hm : ssrRateMultiplier s pc = s.softPityBoost := by
      unfold ssrRateMultiplier
      rw [if_pos hge]
    rw [hm]
    unfold normalizedSSRRate totalRate adjustedSSRRate
    have hprod : s.rarityRates.SSR < s.rarityRates.SSR * s.softPityBoost := by
      nlinarith
    refine ⟨rfl, hprod, ?_⟩
    have hd1 : 0 < s.rarityRates.SSR + s.rarityRates.SR + s.rarityRates.R
        + s.rarityRates.Common := by linarith
    have hd2 : 0 < s.rarityRates.SSR * s.softPityBoost + s.rarityRates.SR + s.rarityRates.R
        + s.rarityRates.Common := by linarith
    rw [div_lt_div_iff₀ hd1 hd2]
    have hrest : 0 < s.rarityRates.SR + s.rarityRates.R + s.rarityRates.Common := by linarith
    have hb1 : 0 < s.softPityBoost - 1 := by linarith
    nlinarith [mul_pos (mul_pos h1 hb1) hrest]
  · intro hlt
    have hm : ssrRateMultiplier s pc = 1 := by
      unfold ssrRateMultiplier
      rw [if_neg (by omega)]
    rw [hm]
    unfold normalizedSSRRate totalRate adjustedSSRRate
    simp

/-- C9 at `oneSSR` (soft pity from 2, boost 5): at `pc = 2` the effective rate and
the normalised probability are above their un-boosted values, at `pc = 1` the
effective rate is the base rate. -/
theorem soft_pity_boost_witness :
    (oneSSR.rarityRates.SSR < adjustedSSRRate oneSSR.rarityRates (ssrRateMultiplier oneSSR 2) ∧
      oneSSR.rarityRates.SSR /
          (oneSSR.rarityRates.SSR + oneSSR.rarityRates.SR + oneSSR.rarityRates.R
            + oneSSR.rarityRates.Common)
        < normalizedSSRRate oneSSR.rarityRates (ssrRateMultiplier oneSSR 2)) ∧
    adjustedSSRRate oneSSR.rarityRates (ssrRateMultiplier oneSSR 1)
      = oneSSR.rarityRates.SSR := by
  have hr : 0 < oneSSR.rarityRates.SSR ∧ 0 < oneSSR.rarityRates.SR ∧
      0 < oneSSR.rarityRates.R ∧ 0 < oneSSR.rarityRates.Common := by
    norm_num [oneSSR, setPitySettings, addCharacter, recalculateTotalRates, GachaSystem.new]
  have hbo : 1 < oneSSR.softPityBoost := by
    norm_num [oneSSR, setPitySettings]
  have hst : oneSSR.softPityStart = 2 := by
    norm_num [oneSSR, setPitySettings]
  exact ⟨((soft_pity_boost oneSSR 2 hr hbo).1 (by rw [hst])).2,
    ((soft_pity_boost oneSSR 1 hr hbo).2 (by rw [hst]; norm_num)).1⟩

/-! ## Sequence number -/

/-- The sequence number on catalogs without a negative rate: with non-negative rates
and stream values in `[0, 1)`, the result `pull` returns has `pullNumber` equal
to the previous `pullCount` plus one, on the hard-pity path and on every
natural roll, and it is the entry appended last to the history. -/
theorem pull_number (env : Env) (s s1 : GachaSystem) (r : GachaResult)
    (hw : NonnegRates s) (hu : UnitStream env) (h : pull env s = some (r, s1)) :
    r.pullNumber = s.pullCount + 1 ∧ s1.history = s.history ++ [r] := by
  refine ⟨?_, (pull_frame env s s1 r h).2.2.2.2.2.2.2⟩
  by_cases hhard : s.pullCount + 1 ≥ s.hardPity
  · cases hsc : selectedCharacter s with
    | none => simp [pull, hhard, hsc] at h
    | some c =>
      rw [pull_hard env s hhard c hsc] at h
      simp only [Option.some.injEq, Prod.mk.injEq] at h
      rw [← h.1]
  · rw [pull_natural env s hhard] at h
    simp only [Option.some.injEq, Prod.mk.injEq] at h
    rw [← h.1]
    exact (naturalRoll_spec env s (s.pullCount + 1) hw (hu _).2).2.1

/-- The sequence number at draws of `oneSSR` on `highEnv`: the first draw, a natural
roll, is numbered `0 + 1`; the third, the hard-pity draw, is numbered `2 + 1`. -/
theorem pull_number_witness :
    ((⟨"Common Item", "Common", false, 1⟩ : GachaResult).pullNumber = oneSSR.pullCount + 1 ∧
      oneSSR1.history = oneSSR.history ++ [⟨"Common Item", "Common", false, 1⟩]) ∧
    ((⟨"A", "SSR", true, 3⟩ : GachaResult).pullNumber = oneSSR2.pullCount + 1 ∧
      oneSSR3.history = oneSSR2.history ++ [⟨"A", "SSR", true, 3⟩]) :=
  ⟨pull_number highEnv oneSSR oneSSR1 _ nonnegRates_oneSSR unitStream_highEnv
      pull_highEnv_oneSSR,
    pull_number highEnv oneSSR2 oneSSR3 _ nonnegRates_oneSSR2 unitStream_highEnv
      pull_highEnv_oneSSR2⟩

/-- C10 fails on the code at `negSSR` (one `"SSR"` entry of rate -1, `pullCount = 0`)
on a stream of zeros: the tier chain selects `"SSR"`, the item walk over the one
entry ends without its `break`, and `result.pullNumber` is never assigned. The
returned and recorded result carries whatever the indeterminate scalar `n 0`
holds, for every content `b`, `n`, and not the previous `pullCount` plus one,
which is 1; with `n 0 = 0` the number is 0. -/
theorem pull_number_unassigned :
    negSSR.pullCount + 1 = 1 ∧
    (∀ (b : Nat → Bool) (n : Nat → Int),
      pull (zeroEnvWith b n) negSSR = some (⟨"", "", b 0, n 0⟩, negSSR1With b n) ∧
      (negSSR1With b n).history.getLast? = some ⟨"", "", b 0, n 0⟩ ∧
      (⟨"", "", b 0, n 0⟩ : GachaResult).pullNumber = n 0) ∧
    pull zeroEnv negSSR = some (⟨"", "", false, 0⟩, negSSR1) ∧
    (⟨"", "", false, 0⟩ : GachaResult).pullNumber ≠ negSSR.pullCount + 1 := by
  refine ⟨?_, fun b n => ⟨pull_zeroEnvWith_negSSR b n, ?_, rfl⟩, pull_zeroEnv_negSSR, ?_⟩
  · norm_num [negSSR, setPitySettings, addCharacter, recalculateTotalRates, GachaSystem.new]
  · simp [negSSR1With]
  · norm_num [negSSR, setPitySettings, addCharacter, recalculateTotalRates, GachaSystem.new]

/-! ## Tier selection -/

theorem naturalRoll_fst (env : Env) (s : GachaSystem) (pc : Int) :
    (naturalRoll env s pc).1 = selectedRarity env s pc := by
  unfold naturalRoll selectedRarity
  simp only
  split
  · rfl
  · split <;> rfl

theorem normalized_total (rates : RarityRates) (mult : ℚ) (h : totalRate rates mult ≠ 0) :
    normalizedSSRRate rates mult + normalizedSRRate rates mult + normalizedRRate rates mult
      + rates.Common / totalRate rates mult = 1 := by
  unfold normalizedSSRRate normalizedSRRate normalizedRRate
  rw [← add_div, ← add_div, ← add_div]
  exact div_self h

/-- C11: for a draw that is not a hard-pity draw, with positive total rate and a
stream value `r` in `[0, 1)`, the selected rarity is the first tier, in the
order `"SSR"`, `"SR"`, `"R"`, `"Common"`, whose cumulative normalised
probability is strictly greater than `r`: `"SSR"` if `r < pSSR`, else `"SR"`
if `r < pSSR + pSR`, else `"R"` if `r < pSSR + pSR + pR`, else `"Common"`;
and it is the rarity that decides the reset of the counter in `pull`. -/
theorem tier_selection_walk (env : Env) (s : GachaSystem)
    (hnh : ¬ s.pullCount + 1 ≥ s.hardPity)
    (hT : 0 < totalRate s.rarityRates (ssrRateMultiplier s (s.pullCount + 1)))
    (hu : UnitStream env) :
    firstTierAbove (env.rnd (s.rngPos + 1)) 0
        (tierTable s.rarityRates (ssrRateMultiplier s (s.pullCount + 1)))
      = some (naturalRoll env s (s.pullCount + 1)).1 ∧
    (naturalRoll env s (s.pullCount + 1)).1 =
      (if env.rnd (s.rngPos + 1)
          < normalizedSSRRate s.rarityRates (ssrRateMultiplier s (s.pullCount + 1)) then "SSR"
        else if env.rnd (s.rngPos + 1)
          < normalizedSSRRate s.rarityRates (ssrRateMultiplier s (s.pullCount + 1))
            + normalizedSRRate s.rarityRates (ssrRateMultiplier s (s.pullCount + 1)) then "SR"
        else if env.rnd (s.rngPos + 1)
          < normalizedSSRRate s.rarityRates (ssrRateMultiplier s (s.pullCount + 1))
            + normalizedSRRate s.rarityRates (ssrRateMultiplier s (s.pullCount + 1))
            + normalizedRRate s.rarityRates (ssrRateMultiplier s (s.pullCount + 1)) then "R"
        else "Common") ∧
    ∃ res s1, pull env s = some (res, s1) ∧
      s1.pullCount =
        if (naturalRoll env s (s.pullCount + 1)).1 = "SSR" then 0 else s.pullCount + 1 := by
  have hsum := normalized_total s.rarityRates (ssrRateMultiplier s (s.pullCount + 1))
    (ne_of_gt hT)
  have hr := (hu (s.rngPos + 1)).2
  refine ⟨?_, ?_, _, _, pull_natural env s hnh, rfl⟩
  · rw [naturalRoll_fst]
    unfold selectedRarity selectRarity tierTable firstTierAbove firstTierAbove firstTierAbove
      firstTierAbove normalizedSSRRate normalizedSRRate normalizedRRate
    unfold normalizedSSRRate normalizedSRRate normalizedRRate at hsum
    simp only [zero_add]
    split
    · rfl
    · split
      · rfl
      · split
        · rfl
        · rw [if_pos (by rw [hsum]; exact hr)]
  · rw [naturalRoll_fst]
    rfl

theorem totalRate_oneSSR_first :
    totalRate oneSSR.rarityRates (ssrRateMultiplier oneSSR (oneSSR.pullCount + 1)) = 1 := by
  norm_num [totalRate, adjustedSSRRate, ssrRateMultiplier, oneSSR, setPitySettings,
    addCharacter, recalculateTotalRates, GachaSystem.new]

theorem selected_highEnv_oneSSR :
    (naturalRoll highEnv oneSSR (oneSSR.pullCount + 1)).1 = "Common" := by
  rw [naturalRoll_fst]
  norm_num [selectedRarity, selectRarity, normalizedSSRRate, normalizedSRRate, normalizedRRate,
    totalRate, adjustedSSRRate, ssrRateMultiplier, highEnv, oneSSR, setPitySettings,
    addCharacter, recalculateTotalRates, GachaSystem.new]

/-- C11 at the first draw of `oneSSR` on `highEnv`: with `r = 99/100` the walk over
the four tiers passes `"SSR"`, `"SR"` and `"R"` (cumulative `21/100`) and
stops at `"Common"`, the rarity `pull` selects. -/
theorem tier_selection_walk_witness :
    firstTierAbove (highEnv.rnd (oneSSR.rngPos + 1)) 0
        (tierTable oneSSR.rarityRates (ssrRateMultiplier oneSSR (oneSSR.pullCount + 1)))
      = some "Common" ∧
    (naturalRoll highEnv oneSSR (oneSSR.pullCount + 1)).1 = "Common" := by
  have h := (tier_selection_walk highEnv oneSSR
    (by norm_num [oneSSR, setPitySettings, addCharacter, recalculateTotalRates,
      GachaSystem.new])
    (by rw [totalRate_oneSSR_first]; norm_num) unitStream_highEnv).1
  rw [selected_highEnv_oneSSR] at h
  exact ⟨h, selected_highEnv_oneSSR⟩

/-! ## Tier boundaries -/

/-- C12 (amended): with positive total rate and positive `"SR"` and `"R"` rates, a
stream value `r` exactly on the cumulative boundary between two adjacent tiers
selects the lower (more common) of the two: `"SR"` at `r = pSSR`, `"R"` at
`r = pSSR + pSR`, `"Common"` at `r = pSSR + pSR + pR`. -/
theorem tier_boundary_lower (env : Env) (s : GachaSystem)
    (hT : 0 < totalRate s.rarityRates (ssrRateMultiplier s (s.pullCount + 1)))
    (hSR : 0 < s.rarityRates.SR) (hR : 0 < s.rarityRates.R) :
    (env.rnd (s.rngPos + 1)
        = normalizedSSRRate s.rarityRates (ssrRateMultiplier s (s.pullCount + 1)) →
      (naturalRoll env s (s.pullCount + 1)).1 = "SR") ∧
    (env.rnd (s.rngPos + 1)
        = normalizedSSRRate s.rarityRates (ssrRateMultiplier s (s.pullCount + 1))
          + normalizedSRRate s.rarityRates (ssrRateMultiplier s (s.pullCount + 1)) →
      (naturalRoll env s (s.pullCount + 1)).1 = "R") ∧
    (env.rnd (s.rngPos + 1)
        = normalizedSSRRate s.rarityRates (ssrRateMultiplier s (s.pullCount + 1))
          + normalizedSRRate s.rarityRates (ssrRateMultiplier s (s.pullCount + 1))
          + normalizedRRate s.rarityRates (ssrRateMultiplier s (s.pullCount + 1)) →
      (naturalRoll env s (s.pullCount + 1)).1 = "Common") := by
  have hpSR : 0 < normalizedSRRate s.rarityRates (ssrRateMultiplier s (s.pullCount + 1)) :=
    div_pos hSR hT
  have hpR : 0 < normalizedRRate s.rarityRates (ssrRateMultiplier s (s.pullCount + 1)) :=
    div_pos hR hT
  rw [naturalRoll_fst]
  unfold selectedRarity selectRarity
  refine ⟨fun h => ?_, fun h => ?_, fun h => ?_⟩
  · rw [h, if_neg (lt_irrefl _), if_pos (by linarith)]
  · rw [h, if_neg (by linarith), if_neg (lt_irrefl _), if_pos (by linarith)]
  · rw [h, if_neg (by linarith), if_neg (by linarith), if_neg (lt_irrefl _)]

theorem normalizedSSRRate_new_first :
    normalizedSSRRate GachaSystem.new.rarityRates
      (ssrRateMultiplier GachaSystem.new (GachaSystem.new.pullCount + 1)) = 1 / 100 := by
  norm_num [normalizedSSRRate, totalRate, adjustedSSRRate, ssrRateMultiplier, GachaSystem.new,
    recalculateTotalRates]

/-- The amended C12 at the constructor's state on `boundaryEnv`: `r = 1/100 = pSSR`
selects `"SR"`. -/
theorem tier_boundary_lower_witness :
    boundaryEnv.rnd (GachaSystem.new.rngPos + 1)
      = normalizedSSRRate GachaSystem.new.rarityRates
          (ssrRateMultiplier GachaSystem.new (GachaSystem.new.pullCount + 1)) ∧
    (naturalRoll boundaryEnv GachaSystem.new (GachaSystem.new.pullCount + 1)).1 = "SR" := by
  have hb : boundaryEnv.rnd (GachaSystem.new.rngPos + 1)
      = normalizedSSRRate GachaSystem.new.rarityRates
          (ssrRateMultiplier GachaSystem.new (GachaSystem.new.pullCount + 1)) := by
    rw [normalizedSSRRate_new_first]
    rfl
  exact ⟨hb, (tier_boundary_lower boundaryEnv GachaSystem.new
    (by norm_num [totalRate, adjustedSSRRate, ssrRateMultiplier, GachaSystem.new,
      recalculateTotalRates])
    (by norm_num [GachaSystem.new, recalculateTotalRates])
    (by norm_num [GachaSystem.new, recalculateTotalRates])).1 hb⟩

/-- C12 as stated fails at the constructor's state on `boundaryEnv`: the draw is not
a hard-pity draw, the stream value `1/100` lies exactly on the boundary
between `"SSR"` and `"SR"`, and the selected tier is `"SR"`, not the higher
tier `"SSR"`. -/
theorem tier_boundary_counterexample :
    ¬ GachaSystem.new.pullCount + 1 ≥ GachaSystem.new.hardPity ∧
    UnitStream boundaryEnv ∧
    boundaryEnv.rnd (GachaSystem.new.rngPos + 1)
      = normalizedSSRRate GachaSystem.new.rarityRates
          (ssrRateMultiplier GachaSystem.new (GachaSystem.new.pullCount + 1)) ∧
    (naturalRoll boundaryEnv GachaSystem.new (GachaSystem.new.pullCount + 1)).1 = "SR" ∧
    (naturalRoll boundaryEnv GachaSystem.new (GachaSystem.new.pullCount + 1)).1 ≠ "SSR" := by
  have hsel : (naturalRoll boundaryEnv GachaSystem.new (GachaSystem.new.pullCount + 1)).1
      = "SR" := by
    rw [naturalRoll_fst]
    norm_num [selectedRarity, selectRarity, normalizedSSRRate, normalizedSRRate,
      normalizedRRate, totalRate, adjustedSSRRate, ssrRateMultiplier, boundaryEnv,
      GachaSystem.new, recalculateTotalRates]
  refine ⟨?_, ?_, ?_, hsel, ?_⟩
  · norm_num [GachaSystem.new, recalculateTotalRates]
  · intro k
    simp only [boundaryEnv]
    norm_num
  · rw [normalizedSSRRate_new_first]
    rfl
  · rw [hsel]
    decide

/-! ## Item selection within the tier -/

theorem cumWeight_zero (d : Character) (ds : List Character) :
    cumWeight (d :: ds) 0 = d.rate := by
  simp [cumWeight]

theorem cumWeight_succ (d : Character) (ds : List Character) (j : Nat) :
    cumWeight (d :: ds) (j + 1) = d.rate + cumWeight ds j := by
  simp [cumWeight]

theorem cumWeight_pos (cs : List Character) (hpos : ∀ c ∈ cs, 0 < c.rate) :
    ∀ k, k < cs.length → 0 < cumWeight cs k := by
  induction cs with
  | nil =>
    intro k hk
    simp at hk
  | cons d ds ih =>
    intro k hk
    have hd : 0 < d.rate := hpos d (List.mem_cons_self _ _)
    cases k with
    | zero =>
      rw [cumWeight_zero]
      exact hd
    | succ k =>
      rw [cumWeight_succ]
      have := ih (fun c hc => hpos c (List.mem_cons_of_mem _ hc)) k
        (by simpa using hk)
      linarith

theorem cumWeight_lt (cs : List Character) (hpos : ∀ c ∈ cs, 0 < c.rate) :
    ∀ l k, l < k → k < cs.length → cumWeight cs l < cumWeight cs k := by
  induction cs with
  | nil =>
    intro l k _ hk
    simp at hk
  | cons d ds ih =>
    intro l k hlk hk
    have hds : ∀ c ∈ ds, 0 < c.rate := fun c hc => hpos c (List.mem_cons_of_mem _ hc)
    cases k with
    | zero => exact absurd hlk (Nat.not_lt_zero l)
    | succ k =>
      have hk1 : k < ds.length := by simpa using hk
      rw [cumWeight_succ]
      cases l with
      | zero =>
        rw [cumWeight_zero]
        have := cumWeight_pos ds hds k hk1
        linarith
      | succ l =>
        rw [cumWeight_succ]
        have := ih hds l k (by omega) hk1
        linarith

theorem foldl_rate_eq_sum (cs : List Character) :
    cs.foldl (fun acc c => acc + c.rate) 0 = (cs.map (fun c => c.rate)).sum := by
  induction cs with
  | nil => rfl
  | cons d ds ih =>
    simp only [List.foldl_cons, List.map_cons, List.sum_cons]
    rw [foldl_rate_shift, ih]
    ring

/-- The entry the walk stops at is the first one whose cumulative weight reaches
`charRand`. -/
theorem pickCharacter_first (r : ℚ) :
    ∀ (cs : List Character) (cum : ℚ) (c : Character), pickCharacter r cum cs = some c →
      ∃ j, cs.get? j = some c ∧ r ≤ cum + cumWeight cs j ∧
        ∀ l, l < j → cum + cumWeight cs l < r := by
  intro cs
  induction cs with
  | nil =>
    intro cum c h
    simp [pickCharacter] at h
  | cons d ds ih =>
    intro cum c h
    unfold pickCharacter at h
    split at h
    · rename_i hd
      simp only [Option.some.injEq] at h
      subst h
      refine ⟨0, rfl, ?_, fun l hl => absurd hl (Nat.not_lt_zero l)⟩
      rw [cumWeight_zero]
      exact hd
    · rename_i hd
      obtain ⟨j, hget, hle, hfirst⟩ := ih (cum + d.rate) c h
      refine ⟨j + 1, by simpa using hget, ?_, ?_⟩
      · rw [cumWeight_succ]
        linarith
      · intro l hl
        cases l with
        | zero =>
          rw [cumWeight_zero]
          exact lt_of_not_le hd
        | succ l =>
          rw [cumWeight_succ]
          have := hfirst l (by omega)
          linarith

theorem naturalRoll_found (env : Env) (s : GachaSystem) (pc : Int) (c : Character)
    (hne : rarityChars s.characters (selectedRarity env s pc) ≠ [])
    (hc : pickCharacter (charRand env s pc) 0
      (rarityChars s.characters (selectedRarity env s pc)) = some c) :
    (naturalRoll env s pc).2.1 =
      { item := c.name, rarity := c.rarity, isPity := false, pullNumber := pc } := by
  unfold charRand selectedRarity at hc
  unfold selectedRarity at hne
  unfold naturalRoll
  simp only
  rw [if_neg (by simpa using hne), hc]

/-- C13: for a draw that is not a hard-pity draw, whose selected tier has at least
one catalog entry and only positive weights, and a stream with values in
`[0, 1)`: with `charRand = u * (sum of the tier weights)`, `pull` returns the
earliest entry of that tier, in catalog order, whose cumulative weight is
`>= charRand`. Such an entry exists; it is a catalog entry of the selected
rarity, the result carries its name, that rarity and `isPity = false`; and a
`charRand` equal to the cumulative weight of the entry at position `k`
yields that entry, not the next one. -/
theorem item_selection (env : Env) (s : GachaSystem)
    (hnh : ¬ s.pullCount + 1 ≥ s.hardPity)
    (hne : rarityChars s.characters (selectedRarity env s (s.pullCount + 1)) ≠ [])
    (hpos : ∀ c ∈ rarityChars s.characters (selectedRarity env s (s.pullCount + 1)),
      0 < c.rate)
    (hu : UnitStream env) :
    charRand env s (s.pullCount + 1) = env.rnd (s.rngPos + 2) *
      ((rarityChars s.characters (selectedRarity env s (s.pullCount + 1))).map
        (fun c => c.rate)).sum ∧
    ∃ j c s1,
      (rarityChars s.characters (selectedRarity env s (s.pullCount + 1))).get? j = some c ∧
      charRand env s (s.pullCount + 1)
        ≤ cumWeight (rarityChars s.characters (selectedRarity env s (s.pullCount + 1))) j ∧
      (∀ l, l < j →
        cumWeight (rarityChars s.characters (selectedRarity env s (s.pullCount + 1))) l
          < charRand env s (s.pullCount + 1)) ∧
      (∀ k, k < (rarityChars s.characters (selectedRarity env s (s.pullCount + 1))).length →
        charRand env s (s.pullCount + 1)
          = cumWeight (rarityChars s.characters (selectedRarity env s (s.pullCount + 1))) k →
        k = j) ∧
      c ∈ s.characters ∧ c.rarity = selectedRarity env s (s.pullCount + 1) ∧
      pull env s =
        some ({ item := c.name, rarity := selectedRarity env s (s.pullCount + 1),
                isPity := false, pullNumber := s.pullCount + 1 }, s1) := by
  have hsum : charRand env s (s.pullCount + 1) = env.rnd (s.rngPos + 2) *
      ((rarityChars s.characters (selectedRarity env s (s.pullCount + 1))).map
        (fun c => c.rate)).sum := by
    unfold charRand totalRarityRate
    rw [foldl_rate_eq_sum]
  refine ⟨hsum, ?_⟩
  have hnonneg : 0 ≤ (rarityChars s.characters (selectedRarity env s (s.pullCount + 1))).foldl
      (fun acc c => acc + c.rate) 0 :=
    foldl_rate_nonneg _ (fun c hc => le_of_lt (hpos c hc))
  have hle : charRand env s (s.pullCount + 1) ≤
      (rarityChars s.characters (selectedRarity env s (s.pullCount + 1))).foldl
        (fun acc c => acc + c.rate) 0 := by
    have h1 := mul_le_mul_of_nonneg_right (le_of_lt (hu (s.rngPos + 2)).2) hnonneg
    unfold charRand totalRarityRate
    linarith
  obtain ⟨c, hc⟩ := pickCharacter_isSome _ _ 0 hne hle
  obtain ⟨j, hget, hcum, hfirst⟩ := pickCharacter_first _ _ 0 c hc
  have hmem := pickCharacter_mem _ _ _ _ hc
  have hrar := rarityChars_rarity _ _ _ hmem
  have hcat : c ∈ s.characters := by
    unfold rarityChars at hmem
    exact (List.mem_filter.mp hmem).1
  have hj : j < (rarityChars s.characters (selectedRarity env s (s.pullCount + 1))).length := by
    by_contra hge
    rw [List.get?_eq_none.mpr (by omega)] at hget
    simp at hget
  have hres := naturalRoll_found env s (s.pullCount + 1) c hne hc
  have hp := pull_natural env s hnh
  rw [hres, hrar] at hp
  refine ⟨j, c, _, hget, by simpa using hcum, fun l hl => by simpa using hfirst l hl, ?_,
    hcat, hrar, hp⟩
  intro k hk hkeq
  rcases Nat.lt_trichotomy k j with hlt | heq | hgt
  · have := hfirst k hlt
    rw [hkeq] at this
    simp at this
  · exact heq
  · have := cumWeight_lt _ hpos j k hgt hk
    rw [← hkeq] at this
    have h2 : charRand env s (s.pullCount + 1)
        ≤ cumWeight (rarityChars s.characters (selectedRarity env s (s.pullCount + 1))) j := by
      simpa using hcum
    exact absurd h2 (not_le_of_lt this)

theorem selected_halfEnv_twoCommon :
    selectedRarity halfEnv twoCommon (twoCommon.pullCount + 1) = "Common" := by
  norm_num [selectedRarity, selectRarity, normalizedSSRRate, normalizedSRRate, normalizedRRate,
    totalRate, adjustedSSRRate, ssrRateMultiplier, halfEnv, twoCommon, addCharacter,
    recalculateTotalRates, GachaSystem.new]

theorem rarityChars_twoCommon :
    rarityChars twoCommon.characters "Common" =
      [⟨"P", "Common", 1, "", ""⟩, ⟨"Q", "Common", 1, "", ""⟩] := by
  simp [rarityChars, twoCommon, addCharacter, recalculateTotalRates, GachaSystem.new]

theorem pull_halfEnv_twoCommon :
    pull halfEnv twoCommon = some (⟨"P", "Common", false, 1⟩, twoCommon1) := by
  have e2 : ¬ ("SSR" : String) = "Common" := by decide
  have e3 : ¬ ("Common" : String) = "SSR" := by decide
  norm_num [pull, twoCommon1, twoCommon, halfEnv, naturalRoll, addCharacter,
    GachaSystem.new, recalculateTotalRates, selectRarity, ssrRateMultiplier, normalizedSSRRate,
    normalizedSRRate, normalizedRRate, adjustedSSRRate, totalRate, rarityChars, totalRarityRate,
    pickCharacter, addToTotal, e2, e3]

/-- C13 at `twoCommon` on `halfEnv`: the tier `"Common"` has the entries `"P"`, `"Q"` of
weight 1 each, `charRand = 1/2 * 2 = 1` lies exactly on the boundary after
`"P"`, and `pull` returns `"P"`, the earlier entry. -/
theorem item_selection_witness :
    charRand halfEnv twoCommon (twoCommon.pullCount + 1)
      = cumWeight (rarityChars twoCommon.characters "Common") 0 ∧
    pull halfEnv twoCommon = some (⟨"P", "Common", false, 1⟩, twoCommon1) ∧
    ∃ c s1,
      (rarityChars twoCommon.characters "Common").get? 0 = some c ∧
      pull halfEnv twoCommon =
        some ({ item := c.name, rarity := "Common", isPity := false,
                pullNumber := twoCommon.pullCount + 1 }, s1) := by
  have hnh : ¬ twoCommon.pullCount + 1 ≥ twoCommon.hardPity := by
    norm_num [twoCommon, addCharacter, recalculateTotalRates, GachaSystem.new]
  have hne : rarityChars twoCommon.characters
      (selectedRarity halfEnv twoCommon (twoCommon.pullCount + 1)) ≠ [] := by
    rw [selected_halfEnv_twoCommon, rarityChars_twoCommon]
    simp
  have hpos : ∀ c ∈ rarityChars twoCommon.characters
      (selectedRarity halfEnv twoCommon (twoCommon.pullCount + 1)), 0 < c.rate := by
    rw [selected_halfEnv_twoCommon, rarityChars_twoCommon]
    intro c hc
    simp only [List.mem_cons, List.mem_singleton, List.not_mem_nil, or_false] at hc
    rcases hc with rfl | rfl <;> norm_num
  have hu : UnitStream halfEnv := by
    intro k
    simp only [halfEnv]
    split <;> norm_num
  obtain ⟨hcr, j, c, s1, hget, -, -, hbound, -, -, hp⟩ :=
    item_selection halfEnv twoCommon hnh hne hpos hu
  rw [selected_halfEnv_twoCommon] at hcr hget hbound hp
  have hval : charRand halfEnv twoCommon (twoCommon.pullCount + 1)
      = cumWeight (rarityChars twoCommon.characters "Common") 0 := by
    rw [hcr, rarityChars_twoCommon]
    norm_num [cumWeight, halfEnv, twoCommon, addCharacter, recalculateTotalRates,
      GachaSystem.new]
  have hj : 0 = j := hbound 0 (by rw [rarityChars_twoCommon]; simp) hval
  subst hj
  exact ⟨hval, pull_halfEnv_twoCommon, c, s1, hget, hp⟩

/-! ## Empty tier -/

theorem naturalRoll_empty (env : Env) (s : GachaSystem) (pc : Int)
    (hempty : rarityChars s.characters (selectedRarity env s pc) = []) :
    naturalRoll env s pc =
      (selectedRarity env s pc,
        { item := selectedRarity env s pc ++ " Item", rarity := selectedRarity env s pc,
          isPity := false, pullNumber := pc },
        s.rngPos + 2) := by
  unfold selectedRarity at hempty
  unfold naturalRoll selectedRarity
  simp only
  rw [if_pos (by rw [hempty]; rfl)]

/-- C14: for a draw that is not a hard-pity draw and whose selected rarity `T` has
no catalog entry, `pull` returns the placeholder with item `T` followed by
`" Item"`, rarity `T`, `isPity = false` and `pullNumber` the incremented
counter; it appends that result to the history, and it resets the counter
exactly when `T` is `"SSR"`. -/
theorem empty_tier_placeholder (env : Env) (s : GachaSystem)
    (hnh : ¬ s.pullCount + 1 ≥ s.hardPity)
    (hempty : rarityChars s.characters (selectedRarity env s (s.pullCount + 1)) = []) :
    pull env s =
      some ({ item := selectedRarity env s (s.pullCount + 1) ++ " Item",
              rarity := selectedRarity env s (s.pullCount + 1),
              isPity := false, pullNumber := s.pullCount + 1 },
        { s with
          pullCount :=
            if selectedRarity env s (s.pullCount + 1) = "SSR" then 0 else s.pullCount + 1
          history := s.history ++
            [{ item := selectedRarity env s (s.pullCount + 1) ++ " Item",
               rarity := selectedRarity env s (s.pullCount + 1),
               isPity := false, pullNumber := s.pullCount + 1 }]
          rngPos := s.rngPos + 2 }) := by
  rw [pull_natural env s hnh, naturalRoll_empty env s (s.pullCount + 1) hempty]

theorem selected_zeroEnv_new :
    selectedRarity zeroEnv GachaSystem.new (GachaSystem.new.pullCount + 1) = "SSR" := by
  norm_num [selectedRarity, selectRarity, normalizedSSRRate, normalizedSRRate, normalizedRRate,
    totalRate, adjustedSSRRate, ssrRateMultiplier, zeroEnv, GachaSystem.new,
    recalculateTotalRates]

/-- C14 at the constructor's state (empty catalog) on `zeroEnv`: the tier chain
selects `"SSR"`, the draw returns the placeholder `"SSR Item"` numbered 1,
records it and leaves the counter at 0. -/
theorem empty_tier_placeholder_witness :
    pull zeroEnv GachaSystem.new = some (⟨"SSR Item", "SSR", false, 1⟩, new1) := by
  have hnh : ¬ GachaSystem.new.pullCount + 1 ≥ GachaSystem.new.hardPity := by
    norm_num [GachaSystem.new, recalculateTotalRates]
  have hempty : rarityChars GachaSystem.new.characters
      (selectedRarity zeroEnv GachaSystem.new (GachaSystem.new.pullCount + 1)) = [] := by
    simp [rarityChars, GachaSystem.new, recalculateTotalRates]
  have h := empty_tier_placeholder zeroEnv GachaSystem.new hnh hempty
  rw [selected_zeroEnv_new] at h
  have e1 : ("SSR" : String) ++ " Item" = "SSR Item" := by decide
  rw [h, e1]
  simp [new1, GachaSystem.new, recalculateTotalRates]

/-! ## Bounds of the selected index -/

/-- C15: in every reachable state with a non-empty catalog,
`0 <= selectedCharPity < characters.size()`, so `characters[selectedCharPity]`
is an entry of the catalog and `pull` returns, on the hard-pity path too; and
`setSelectedCharPity(i)` with `i` outside `[0, size)` leaves the state, hence
`selectedCharPity`, as it was. -/
theorem selected_index_in_bounds (env : Env) (s : GachaSystem)
    (hreach : Reachable env s) (hne : s.characters ≠ []) :
    (0 ≤ s.selectedCharPity ∧ s.selectedCharPity < (s.characters.length : Int)) ∧
    (∃ c, selectedCharacter s = some c ∧ c ∈ s.characters) ∧
    (∃ r s1, pull env s = some (r, s1)) ∧
    (∀ i : Int, ¬ (0 ≤ i ∧ i < (s.characters.length : Int)) →
      setSelectedCharPity s i = s) := by
  obtain ⟨-, -, h0, hlt⟩ := reachable_inv env s hreach
  have hlen : 0 < s.characters.length := List.length_pos.mpr hne
  have hsel : 0 ≤ s.selectedCharPity ∧ s.selectedCharPity < (s.characters.length : Int) := by
    rcases hlt with h | h
    · rw [h]
      exact ⟨le_refl 0, by omega⟩
    · exact ⟨h0, h⟩
  obtain ⟨c, hc⟩ := selectedCharacter_isSome s hsel
  refine ⟨hsel, ⟨c, hc, ?_⟩, pull_isSome_of_valid env s hsel, ?_⟩
  · unfold selectedCharacter at hc
    rw [if_pos hsel.1] at hc
    exact List.get?_mem hc
  · intro i hi
    unfold setSelectedCharPity
    rw [if_neg (by simpa using hi)]

/-- C15 at the reachable state `oneSSR2` (one catalog entry, counter one below the
threshold): the selected index is 0, inside `[0, 1)`, and the index 1 is
rejected by `setSelectedCharPity`. -/
theorem selected_index_in_bounds_witness :
    (0 ≤ oneSSR2.selectedCharPity ∧
      oneSSR2.selectedCharPity < (oneSSR2.characters.length : Int)) ∧
    setSelectedCharPity oneSSR2 1 = oneSSR2 := by
  have hne : oneSSR2.characters ≠ [] := by
    simp [oneSSR2, oneSSR, setPitySettings, addCharacter, recalculateTotalRates,
      GachaSystem.new]
  have h := selected_index_in_bounds highEnv oneSSR2 reachable_oneSSR2 hne
  exact ⟨h.1, h.2.2.2 1 (by
    simp [oneSSR2, oneSSR, setPitySettings, addCharacter, recalculateTotalRates,
      GachaSystem.new])⟩

/-! ## The reported rate -/

/-- C16: in a state with `pullCount + 1 < hardPity` (the next draw is not a
hard-pity draw), `getCurrentSSRRate()` equals the effective `"SSR"` rate
`base * multiplier` of the next `pull` unless `pullCount = softPityStart - 1`;
there `getCurrentSSRRate()` is the base rate while the next `pull` uses
`base * softPityBoost`, which is strictly larger when `base > 0` and
`softPityBoost > 1`. -/
theorem current_rate_lags (s : GachaSystem) (hlt : s.pullCount + 1 < s.hardPity) :
    (s.pullCount ≠ s.softPityStart - 1 →
      getCurrentSSRRate s
        = adjustedSSRRate s.rarityRates (ssrRateMultiplier s (s.pullCount + 1))) ∧
    (s.pullCount = s.softPityStart - 1 →
      getCurrentSSRRate s = s.rarityRates.SSR ∧
      adjustedSSRRate s.rarityRates (ssrRateMultiplier s (s.pullCount + 1))
        = s.rarityRates.SSR * s.softPityBoost ∧
      (0 < s.rarityRates.SSR → 1 < s.softPityBoost →
        getCurrentSSRRate s
          < adjustedSSRRate s.rarityRates (ssrRateMultiplier s (s.pullCount + 1)))) := by
  unfold getCurrentSSRRate isInSoftPity adjustedSSRRate ssrRateMultiplier
  constructor
  · intro hne
    by_cases hge : s.pullCount ≥ s.softPityStart
    · have h1 : s.pullCount + 1 ≥ s.softPityStart := by omega
      have h2 : s.pullCount < s.hardPity := by omega
      simp [hge, h1, h2]
    · have h1 : ¬ s.pullCount + 1 ≥ s.softPityStart := by omega
      simp [hge, h1]
  · intro heq
    have hge : ¬ s.pullCount ≥ s.softPityStart := by omega
    have h1 : s.pullCount + 1 ≥ s.softPityStart := by omega
    simp only [hge, h1, false_and, decide_False, if_true]
    refine ⟨by simp, trivial, fun hb hm => ?_⟩
    simp only [Bool.false_eq_true, if_false]
    nlinarith

/-- C16 at `oneSSR` (soft pity from 2, hard pity 3): with `pullCount = 0` the
reported rate is the rate of the next draw; with `pullCount = 1`, one below
the soft-pity start, the reported rate is the base rate and the next draw
uses `base * boost`. -/
theorem current_rate_lags_witness :
    getCurrentSSRRate oneSSR
      = adjustedSSRRate oneSSR.rarityRates (ssrRateMultiplier oneSSR (oneSSR.pullCount + 1)) ∧
    getCurrentSSRRate oneSSR1 = oneSSR1.rarityRates.SSR ∧
    adjustedSSRRate oneSSR1.rarityRates (ssrRateMultiplier oneSSR1 (oneSSR1.pullCount + 1))
      = oneSSR1.rarityRates.SSR * oneSSR1.softPityBoost := by
  have h0 := (current_rate_lags oneSSR
    (by norm_num [oneSSR, setPitySettings, addCharacter, recalculateTotalRates,
      GachaSystem.new])).1
    (by norm_num [oneSSR, setPitySettings, addCharacter, recalculateTotalRates,
      GachaSystem.new])
  have h1 := (current_rate_lags oneSSR1
    (by norm_num [oneSSR1, oneSSR, setPitySettings])).2
    (by norm_num [oneSSR1, oneSSR, setPitySettings])
  exact ⟨h0, h1.1, h1.2.1⟩

end Gacha
